import Mathlib

/-!
Verification of the alabama-rpg terrain system against its specification.

The development shallowly embeds the relevant program parts:
* the nearest-biome spatial search (`findbiome` command module),
* the nearest-prototype biome classifier and CSV prototype loading,
* the multi-axis value-noise synthesizer (`fbm2`, `valueNoise2D`, lattice hash),
* the chunk cache / view-mode handling of the `World` class,
* the latitude helper `latSouth`.

JavaScript numbers are modelled as exact rationals (ℚ) or integers where the
program only manipulates values far inside the float64-exact range; 32-bit
wrapping operations (`>>> 0`, `Math.imul`, `^`, `>>>`) are modelled on `Nat`
modulo 2^32.
-/

set_option maxHeartbeats 1000000
set_option maxRecDepth 40000

namespace FindBiome

/-- A tile coordinate on the integer lattice, the `(tx, ty)` pairs of the source. -/
abbrev Tile := Int × Int

/-- Chebyshev distance between tiles, `Math.max(Math.abs(tx - tx0), Math.abs(ty - ty0))`
as computed by `coarseFirstHit` and the hint logic of `findNearestBiome`. -/
def chebDist (tx0 ty0 tx ty : Int) : Nat :=
  Nat.max (tx - tx0).natAbs (ty - ty0).natAbs

/-- `dist2Tiles` from the source: squared Euclidean distance in tiles. -/
def dist2Tiles (tx0 ty0 tx ty : Int) : Int :=
  (tx - tx0) * (tx - tx0) + (ty - ty0) * (ty - ty0)

/-- The list of tiles visited by `forEachRing(tx0, ty0, r, step, cb)`, in callback
order: for `r = 0` just the center; otherwise the top and bottom edges
(x from `tx0 - r*s` to `tx0 + r*s` in steps of `s`, emitting `(x, y1)` then
`(x, y2)`), followed by the left and right edges excluding corners. -/
def ringPoints (tx0 ty0 : Int) (r s : Nat) : List Tile :=
  if r = 0 then [(tx0, ty0)]
  else
    let x1 : Int := tx0 - (r * s : Nat)
    let x2 : Int := tx0 + (r * s : Nat)
    let y1 : Int := ty0 - (r * s : Nat)
    let y2 : Int := ty0 + (r * s : Nat)
    ((List.range (2 * r + 1)).flatMap fun i =>
      [(x1 + (i * s : Nat), y1), (x1 + (i * s : Nat), y2)]) ++
    ((List.range (2 * r - 1)).flatMap fun j =>
      [(x1, y1 + ((j + 1) * s : Nat)), (x2, y1 + ((j + 1) * s : Nat))])

/-- The per-call search state of `findNearestBiome`: the `visited` set, the
`cache` map from tile to classified id, and (for instrumentation of the
memoization property) the ordered list of tiles actually passed to the
classifier.  The JS keys `"${tx},${ty}"` are injective in the tile, so the
state is keyed directly by tiles. -/
structure SearchState where
  visited : List Tile
  cache : List (Tile × Int)
  calls : List Tile
deriving Repr, DecidableEq

/-- Lookup in the `cache` map (JS `Map.get` after `Map.has`). -/
def cacheGet : List (Tile × Int) → Tile → Option Int
  | [], _ => none
  | (p, v) :: rest, t => if p = t then some v else cacheGet rest t

/-- The shared per-tile visit logic of both `coarseFirstHit` and
`exactNearestWithinBound`: skip if visited, otherwise mark visited and obtain
the id from the cache or by classifying (recording the classifier call).
Returns the new state and `some id` if the tile was freshly processed. -/
def visitTile (classify : Int → Int → Int) (st : SearchState) (t : Tile) :
    SearchState × Option Int :=
  if t ∈ st.visited then (st, none)
  else
    match cacheGet st.cache t with
    | some v => ({ st with visited := t :: st.visited }, some v)
    | none =>
      let v := classify t.1 t.2
      ({ visited := t :: st.visited
         cache := (t, v) :: st.cache
         calls := st.calls ++ [t] }, some v)

/-- One ring of the coarse scan: the callback body of `coarseFirstHit`, folded
over the ring's tiles.  `found` keeps the first fresh match (the JS
`found === null` guard); the whole ring is always traversed. -/
def coarseRing (classify : Int → Int → Int) (targetId : Int) :
    SearchState → Nat → Option Tile → List Tile → SearchState × Nat × Option Tile
  | st, checked, found, [] => (st, checked, found)
  | st, checked, found, t :: rest =>
    match visitTile classify st t with
    | (st1, none) => coarseRing classify targetId st1 checked found rest
    | (st1, some v) =>
      coarseRing classify targetId st1 (checked + 1)
        (if v = targetId ∧ found = none then some t else found) rest

/-- Result record of `coarseFirstHit` (`{ tx, ty, cheb, checked }`). -/
structure CoarseHit where
  tx : Int
  ty : Int
  cheb : Nat
  checked : Nat
deriving Repr, DecidableEq

/-- The ring loop of `coarseFirstHit`: rings `r = 0, 1, …` in order, stopping
at the first ring that produced a match. -/
def coarseRingsLoop (classify : Int → Int → Int) (tx0 ty0 : Int) (targetId : Int)
    (step : Nat) : List Nat → SearchState → Nat → SearchState × Nat × Option CoarseHit
  | [], st, checked => (st, checked, none)
  | r :: rs, st, checked =>
    match coarseRing classify targetId st checked none (ringPoints tx0 ty0 r step) with
    | (st1, checked1, some t) =>
      (st1, checked1, some ⟨t.1, t.2, chebDist tx0 ty0 t.1 t.2, checked1⟩)
    | (st1, checked1, none) =>
      coarseRingsLoop classify tx0 ty0 targetId step rs st1 checked1

/-- `coarseFirstHit(ctx, tx0, ty0, targetId, step, maxCheb, visited, cache)`:
scan rings `r = 0 .. floor(maxCheb / max(1, step))` at stride `step` and return
the first ring hit, threading the shared visited/cache state. -/
def coarseFirstHit (classify : Int → Int → Int) (tx0 ty0 : Int) (targetId : Int)
    (step maxCheb : Nat) (st : SearchState) : SearchState × Option CoarseHit :=
  let limitR := maxCheb / Nat.max 1 step
  let out := coarseRingsLoop classify tx0 ty0 targetId step
    (List.range (limitR + 1)) st 0
  (out.1, out.2.2)

/-- The running best candidate of the exact phase (`{ tx, ty, d2 }`). -/
structure Best where
  tx : Int
  ty : Int
  d2 : Int
deriving Repr, DecidableEq

/-- One ring of the exact phase: the callback body of
`exactNearestWithinBound`, keeping the strictly better candidate
(`!best || d2 < best.d2`). -/
def exactRing (classify : Int → Int → Int) (tx0 ty0 : Int) (targetId : Int) :
    SearchState → Nat → Option Best → List Tile → SearchState × Nat × Option Best
  | st, checked, best, [] => (st, checked, best)
  | st, checked, best, t :: rest =>
    match visitTile classify st t with
    | (st1, none) => exactRing classify tx0 ty0 targetId st1 checked best rest
    | (st1, some v) =>
      let best1 :=
        if v = targetId then
          let d2 := dist2Tiles tx0 ty0 t.1 t.2
          match best with
          | none => some (⟨t.1, t.2, d2⟩ : Best)
          | some b => if d2 < b.d2 then some (⟨t.1, t.2, d2⟩ : Best) else some b
        else best
      exactRing classify tx0 ty0 targetId st1 (checked + 1) best1 rest

/-- The ring loop of `exactNearestWithinBound` with its early exit: after a
ring `r`, if the best candidate satisfies `Math.sqrt(best.d2) <= r` — for
integer data equivalently `d2 ≤ r²` — the loop breaks, since no tile of a
larger ring can be closer. -/
def exactRingsLoop (classify : Int → Int → Int) (tx0 ty0 : Int) (targetId : Int) :
    List Nat → SearchState → Nat → Option Best → SearchState × Nat × Option Best
  | [], st, checked, best => (st, checked, best)
  | r :: rs, st, checked, best =>
    match exactRing classify tx0 ty0 targetId st checked best (ringPoints tx0 ty0 r 1) with
    | (st1, checked1, some b) =>
      if b.d2 ≤ (r : Int) * (r : Int) then (st1, checked1, some b)
      else exactRingsLoop classify tx0 ty0 targetId rs st1 checked1 (some b)
    | (st1, checked1, none) =>
      exactRingsLoop classify tx0 ty0 targetId rs st1 checked1 none

/-- Result record of `exactNearestWithinBound`
(`{ tx, ty, d2, checked, ringsScanned }`). -/
structure ExactRes where
  tx : Int
  ty : Int
  d2 : Int
  checked : Nat
  ringsScanned : Nat
deriving Repr, DecidableEq

/-- `exactNearestWithinBound(ctx, tx0, ty0, targetId, ubCheb, visited, cache)`:
rings `r = 0 .. ubCheb` at stride 1, tracking the minimum squared Euclidean
distance among fresh matches, with the early-exit rule above. -/
def exactNearestWithinBound (classify : Int → Int → Int) (tx0 ty0 : Int)
    (targetId : Int) (ubCheb : Nat) (st : SearchState) : SearchState × Option ExactRes :=
  match exactRingsLoop classify tx0 ty0 targetId (List.range (ubCheb + 1)) st 0 none with
  | (st1, checked, some b) => (st1, some ⟨b.tx, b.ty, b.d2, checked, ubCheb⟩)
  | (st1, _, none) => (st1, none)

/-- `CHUNK_SIZE` from config.js. -/
def CHUNK_SIZE : Nat := 64

/-- The `while (s > 1) { steps.push(s); s = Math.max(1, Math.floor(s / 2)); … }`
loop building the descending stride list. -/
def buildSteps (s : Nat) : List Nat :=
  if h : 1 < s then s :: buildSteps (s / 2) else []
decreasing_by exact Nat.div_lt_self (by omega) (by omega)

/-- The coarse stride list of `findNearestBiome`: halvings of
`max(2, CHUNK_SIZE)`, the extra strides `{16, 8, 4, 2}` not already present,
sorted descending. -/
def coarseSteps : List Nat :=
  let base := Nat.max 2 CHUNK_SIZE
  let steps0 := buildSteps base
  let steps1 := [16, 8, 4, 2].foldl
    (fun acc extra => if extra ∉ acc ∧ extra ≤ base then acc ++ [extra] else acc) steps0
  steps1.mergeSort (fun a b => decide (b ≤ a))

/-- The stride loop of `findNearestBiome`: run `coarseFirstHit` for each stride
until one hits, collecting the per-stride `(step, checked)` stats (`checked`
is reported as 0 for strides without a hit, as in the source; wall-clock
timings are not modelled). -/
def coarsePhase (classify : Int → Int → Int) (tx0 ty0 : Int) (targetId : Int)
    (upperBound : Nat) : List Nat → SearchState → List (Nat × Nat) →
    SearchState × List (Nat × Nat) × Option CoarseHit
  | [], st, stats => (st, stats, none)
  | step :: rest, st, stats =>
    match coarseFirstHit classify tx0 ty0 targetId step upperBound st with
    | (st1, some hit) => (st1, stats ++ [(step, hit.checked)], some hit)
    | (st1, none) =>
      coarsePhase classify tx0 ty0 targetId upperBound rest st1 (stats ++ [(step, 0)])

/-- The successful result object of `findNearestBiome`.  The source reports
`tiles = Math.sqrt(d2)`; the model keeps the exact square `d2`. -/
structure FindResult where
  tx : Int
  ty : Int
  d2 : Int
  checked : Nat
  stepStats : List (Nat × Nat)
  bounded : Nat
  exact : Bool
deriving Repr, DecidableEq

/-- Full outcome of one `findNearestBiome` call: the returned value (`none`
models the JS `null`), the `LAST_HIT` entry for the target id after the call,
and the final visited/cache/calls state. -/
structure FindOutcome where
  result : Option FindResult
  lastHit : Option Tile
  finalState : SearchState
deriving Repr

/-- Fresh per-call state (`new Set()`, `new Map()`). -/
def emptySearchState : SearchState := ⟨[], [], []⟩

/-- `const maxCheb = Math.max(1, opts.maxTiles | 0)`; the `| 0` truncation is
the identity on integers in the int32 range used by the command. -/
def effectiveMaxCheb (maxTiles : Int) : Nat := (max 1 maxTiles).toNat

/-- The initial upper bound of `findNearestBiome`: the hint from `LAST_HIT`
tightens `maxCheb` when `0 < hintCheb < upperBound`. -/
def effectiveUpperBound (startTx startTy : Int) (hint : Option Tile) (maxCheb : Nat) : Nat :=
  match hint with
  | some h =>
    let hintCheb := chebDist startTx startTy h.1 h.2
    if 0 < hintCheb ∧ hintCheb < maxCheb then hintCheb else maxCheb
  | none => maxCheb

/-- The body of `findNearestBiome` after the upper bound is fixed: the coarse
stride phase, then exact refinement within the (possibly tightened) bound, with
the fallback to the coarse hit when refinement finds nothing. -/
def searchWithBound (classify : Int → Int → Int) (startTx startTy : Int)
    (targetId : Int) (upperBound : Nat) (hint : Option Tile) : FindOutcome :=
  let st0 := emptySearchState
  match coarsePhase classify startTx startTy targetId upperBound coarseSteps st0 [] with
  | (st1, stats, none) =>
    match exactNearestWithinBound classify startTx startTy targetId upperBound st1 with
    | (st2, some ex) =>
      { result := some ⟨ex.tx, ex.ty, ex.d2, st2.visited.length, stats, upperBound, true⟩
        lastHit := some (ex.tx, ex.ty)
        finalState := st2 }
    | (st2, none) => { result := none, lastHit := hint, finalState := st2 }
  | (st1, stats, some hit) =>
    let ub2 := Nat.min upperBound hit.cheb
    match exactNearestWithinBound classify startTx startTy targetId ub2 st1 with
    | (st2, some ex) =>
      { result := some ⟨ex.tx, ex.ty, ex.d2, st2.visited.length, stats, ub2, true⟩
        lastHit := some (ex.tx, ex.ty)
        finalState := st2 }
    | (st2, none) =>
      { result := some ⟨hit.tx, hit.ty, dist2Tiles startTx startTy hit.tx hit.ty,
          st2.visited.length, stats, ub2, false⟩
        lastHit := some (hit.tx, hit.ty)
        finalState := st2 }

/-- `findNearestBiome(ctx, startTx, startTy, targetId, opts)`.  The classifier
`classifyIdAt` is abstracted as the function `classify`; `hint` is the
`LAST_HIT` entry for `targetId` at call time. -/
def findNearestBiome (classify : Int → Int → Int) (startTx startTy : Int)
    (targetId : Int) (maxTiles : Int) (hint : Option Tile) : FindOutcome :=
  searchWithBound classify startTx startTy targetId
    (effectiveUpperBound startTx startTy hint (effectiveMaxCheb maxTiles)) hint

/-- A synthetic classifier whose only tile of id 7 is (20, 0), at Chebyshev
distance 20 from the origin (the spec's bound-respect scenario). -/
def classifyOnlyAt20 : Int → Int → Int := fun tx ty =>
  if tx = 20 ∧ ty = 0 then 7 else 0

/-- A synthetic classifier whose only tile of id 7 is (1, 0), at Chebyshev
distance 1 from the origin. -/
def classifyOnlyEast : Int → Int → Int := fun tx ty =>
  if tx = 1 ∧ ty = 0 then 7 else 0

/-- A synthetic classifier with exactly two tiles of id 7: (2, 0) (on the
stride-2 coarse lattice) and (2, 1) (off every coarse lattice). -/
def classifyTwoMatches : Int → Int → Int := fun tx ty =>
  if (tx = 2 ∧ ty = 0) ∨ (tx = 2 ∧ ty = 1) then 7 else 0

/-- The well-formedness invariant of a search state: the classifier-call log
has no duplicates, every logged call was marked visited, and every cache entry
stores the classifier's value for its tile. -/
def Inv (classify : Int → Int → Int) (st : SearchState) : Prop :=
  st.calls.Nodup ∧ (∀ p ∈ st.calls, p ∈ st.visited) ∧
    ∀ p v, (p, v) ∈ st.cache → v = classify p.1 p.2


end FindBiome

namespace Biomes

/-- A JavaScript number as produced by `Number(...)` on a CSV field: a finite
value (exact rational), an infinity, or NaN. -/
inductive JSNum where
  | num (q : ℚ)
  | posInf
  | negInf
  | nan
deriving Repr, DecidableEq

/-- JS `<` on numbers: false whenever an operand is NaN. -/
def JSNum.lt : JSNum → JSNum → Bool
  | .num a, .num b => decide (a < b)
  | .num _, .posInf => true
  | .negInf, .num _ => true
  | .negInf, .posInf => true
  | _, _ => false

/-- `clamp01(x) = x < 0 ? 0 : x > 1 ? 1 : x` from the classifier module, on a
JS number: NaN fails both comparisons and passes through unchanged. -/
def clamp01 (x : JSNum) : JSNum :=
  if JSNum.lt x (.num 0) then .num 0
  else if JSNum.lt (.num 1) x then .num 1
  else x

/-- The 7-axis environmental vector (finite values), as consumed and produced
by the noise synthesizer and the classifier.  The classification weights
object of config.js has the same seven fields and is modelled by this type
as well. -/
structure Axes where
  temp : ℚ
  moist : ℚ
  elev : ℚ
  rough : ℚ
  sal : ℚ
  fert : ℚ
  fire : ℚ
deriving Repr, DecidableEq

/-- `CLASSIFY_WEIGHTS` from config.js. -/
def CLASSIFY_WEIGHTS : Axes := ⟨1, 1, 11/10, 1, 11/10, 1, 1⟩

/-- `weightedDist2(a, b, w)`: the weighted squared Euclidean distance in 7-D
axis space, accumulated axis by axis as in the source. -/
def weightedDist2 (a b w : Axes) : ℚ :=
  w.temp * (a.temp - b.temp) * (a.temp - b.temp) +
  w.moist * (a.moist - b.moist) * (a.moist - b.moist) +
  w.elev * (a.elev - b.elev) * (a.elev - b.elev) +
  w.rough * (a.rough - b.rough) * (a.rough - b.rough) +
  w.sal * (a.sal - b.sal) * (a.sal - b.sal) +
  w.fert * (a.fert - b.fert) * (a.fert - b.fert) +
  w.fire * (a.fire - b.fire) * (a.fire - b.fire)

/-- A biome prototype as used by `classifyAxes` (finite axis values; the
built-in defaults and well-formed CSV rows have this shape). -/
structure Biome where
  id : Int
  label : String
  anchor : String
  temp : ℚ
  moist : ℚ
  elev : ℚ
  rough : ℚ
  sal : ℚ
  fert : ℚ
  fire : ℚ
  color : String
deriving Repr, DecidableEq

/-- The prototype's reference axes vector (`b.temp`, …, `b.fire`). -/
def Biome.axes (b : Biome) : Axes := ⟨b.temp, b.moist, b.elev, b.rough, b.sal, b.fert, b.fire⟩

/-- The result object of `classifyAxes`:
`{ id, label, anchor, color, dist }`. -/
structure ClassifyResult where
  id : Int
  label : String
  anchor : String
  color : String
  dist : ℚ
deriving Repr, DecidableEq

/-- `classifyAxes(axes, list, weights)`: iterate the prototype list keeping
the strictly smaller distance (`bestD` starts at `Infinity`, so the first
prototype always replaces it; ties keep the earlier prototype).  On an empty
list the JS code dereferences `best.id` of `null` and throws; this is
modelled by `none`. -/
def classifyStep (axes weights : Axes) (acc : Option (Biome × ℚ)) (b : Biome) :
    Option (Biome × ℚ) :=
  let d := weightedDist2 axes b.axes weights
  match acc with
  | none => some (b, d)
  | some (bb, bd) => if d < bd then some (b, d) else some (bb, bd)

def classifyAxes (axes : Axes) (list : List Biome) (weights : Axes) :
    Option ClassifyResult :=
  let best := list.foldl (classifyStep axes weights) none
  best.map fun p => ⟨p.1.id, p.1.label, p.1.anchor, p.1.color, p.2⟩

/-- Specification reading of the classifier contract (spec §4.3): the first
prototype in iteration order whose weighted squared distance to the query is
at most every other prototype's — i.e. the first minimizer, with
first-match tie-break. -/
def firstNearestBiome (axes : Axes) (list : List Biome) (weights : Axes) :
    Option Biome :=
  list.find? fun b => list.all fun c =>
    decide (weightedDist2 axes b.axes weights ≤ weightedDist2 axes c.axes weights)

/-- Proof-side reformulation of the fold in `classifyAxes`: the running best
element, replaced only on strictly smaller measure. -/
def minAux {α : Type} (f : α → ℚ) : α → List α → α
  | a, [] => a
  | a, c :: cs => if f c < f a then minAux f c cs else minAux f a cs

end Biomes

namespace Biomes

/-- JS `text.split(/\r?\n/)` on the character list: a separator is a
newline, consuming one immediately preceding carriage return. -/
def splitLinesAux : List Char → List (List Char)
  | [] => [[]]
  | '\x0d' :: '\n' :: rest => [] :: splitLinesAux rest
  | '\n' :: rest => [] :: splitLinesAux rest
  | c :: rest =>
    match splitLinesAux rest with
    | [] => [[c]]
    | l :: ls => (c :: l) :: ls

/-- Split a character list at every occurrence of `sep` (JS
`line.split(',')`). -/
def splitOnChar (sep : Char) : List Char → List (List Char)
  | [] => [[]]
  | c :: rest =>
    if c = sep then [] :: splitOnChar sep rest
    else
      match splitOnChar sep rest with
      | [] => [[c]]
      | l :: ls => (c :: l) :: ls

/-- JS `String.prototype.trim`. -/
def trimChars (cs : List Char) : List Char :=
  ((cs.dropWhile Char.isWhitespace).reverse.dropWhile Char.isWhitespace).reverse

/-- Accumulate a decimal digit string into a natural number. -/
def natOfDigits (cs : List Char) : Nat :=
  cs.foldl (fun n c => n * 10 + (c.toNat - 48)) 0

/-- Parse `digits [. digits]` (at least one digit overall) to a rational. -/
def parseMantissa (cs : List Char) : Option ℚ :=
  let intPart := cs.takeWhile Char.isDigit
  let rest := cs.dropWhile Char.isDigit
  match rest with
  | [] => if intPart.isEmpty then none else some (natOfDigits intPart)
  | '.' :: frac =>
    if frac.all Char.isDigit ∧ (intPart ≠ [] ∨ frac ≠ []) then
      some ((natOfDigits intPart : ℚ) + (natOfDigits frac : ℚ) / (10 ^ frac.length : ℚ))
    else none
  | _ => none

/-- Parse a signed decimal exponent (nonempty digit string). -/
def parseExponent (cs : List Char) : Option Int :=
  match cs with
  | '+' :: rest => if rest ≠ [] ∧ rest.all Char.isDigit then some (natOfDigits rest) else none
  | '-' :: rest => if rest ≠ [] ∧ rest.all Char.isDigit then some (-(natOfDigits rest : Int)) else none
  | _ => if cs ≠ [] ∧ cs.all Char.isDigit then some (natOfDigits cs) else none

/-- Parse an unsigned decimal literal with optional exponent. -/
def parseDecimal (cs : List Char) : Option ℚ :=
  let mant := cs.takeWhile fun c => Char.isDigit c ∨ c = '.'
  let rest := cs.dropWhile fun c => Char.isDigit c ∨ c = '.'
  match rest with
  | [] => parseMantissa mant
  | 'e' :: ex => do
    let m ← parseMantissa mant
    let e ← parseExponent ex
    some (m * (10 : ℚ) ^ e)
  | 'E' :: ex => do
    let m ← parseMantissa mant
    let e ← parseExponent ex
    some (m * (10 : ℚ) ^ e)
  | _ => none

/-- JS `Number(string)` restricted to the forms relevant here: whitespace
trimming, empty string ↦ 0, signed decimal literals with optional fraction
and exponent, and the infinities.  Any other string (in particular any
non-numeric token such as a stray letter) is NaN.  Host-specific extras such
as hexadecimal literals are outside the modelled domain and also map to NaN. -/
def parseNumber (cs : List Char) : JSNum :=
  let t := trimChars cs
  if t = [] then .num 0
  else if t = "Infinity".data ∨ t = "+Infinity".data then .posInf
  else if t = "-Infinity".data then .negInf
  else
    match t with
    | '+' :: rest =>
      match parseDecimal rest with
      | some q => .num q
      | none => .nan
    | '-' :: rest =>
      match parseDecimal rest with
      | some q => .num (-q)
      | none => .nan
    | _ =>
      match parseDecimal t with
      | some q => .num q
      | none => .nan

/-- `DEFAULT_COLORS_BY_ID[id] || '#888888'` keyed by the parsed id. -/
def DEFAULT_COLORS_BY_ID : List (ℚ × String) :=
  [(1, "#2e6b3f"), (2, "#4e7f9e"), (3, "#6a7d6f"), (4, "#3f6a54"),
   (5, "#caa247"), (6, "#4f7f64"), (7, "#9ed46f"), (8, "#cdbb76"),
   (9, "#2f5130"), (10, "#5aa7c7"), (11, "#3b7f6b"), (12, "#8db36a"),
   (13, "#e8d6a0"), (14, "#6e8b5e")]

def colorForId (id : JSNum) : String :=
  match id with
  | .num q => (DEFAULT_COLORS_BY_ID.lookup q).getD "#888888"
  | _ => "#888888"

/-- A row object produced by `parseBiomesCSV` (axis fields are JS numbers,
possibly NaN when a field does not parse). -/
structure CSVRow where
  id : JSNum
  label : String
  anchor : String
  temp : JSNum
  moist : JSNum
  elev : JSNum
  rough : JSNum
  sal : JSNum
  fert : JSNum
  fire : JSNum
  color : String
deriving Repr, DecidableEq

/-- The loop body of `parseBiomesCSV` for one line: skip blank and `#` comment
lines and lines with fewer than 10 comma-separated fields; otherwise build the
row, clamping each axis value to [0,1] on ingest. -/
def parseRow (lineRaw : List Char) : Option CSVRow :=
  let line := trimChars lineRaw
  if line = [] ∨ line.headD ' ' = '#' then none
  else
    let parts := splitOnChar ',' line
    if parts.length < 10 then none
    else
      let idv := parseNumber (parts.getD 0 [])
      some
        { id := idv
          label := String.mk (parts.getD 1 [])
          anchor := String.mk (parts.getD 2 [])
          temp := clamp01 (parseNumber (parts.getD 3 []))
          moist := clamp01 (parseNumber (parts.getD 4 []))
          elev := clamp01 (parseNumber (parts.getD 5 []))
          rough := clamp01 (parseNumber (parts.getD 6 []))
          sal := clamp01 (parseNumber (parts.getD 7 []))
          fert := clamp01 (parseNumber (parts.getD 8 []))
          fire := clamp01 (parseNumber (parts.getD 9 []))
          color := colorForId idv }

/-- `parseBiomesCSV(text)`: split into lines, drop blank lines, skip the
header when present, and parse each remaining line with `parseRow`. -/
def parseBiomesCSV (text : String) : List CSVRow :=
  let lines := (splitLinesAux text.data).filter fun l => (trimChars l).length > 0
  if lines.length = 0 then []
  else
    let header := (lines.headD []).map Char.toLower
    let startIdx := if "id,label,real_world_anchor".data.isPrefixOf header then 1 else 0
    (lines.drop startIdx).filterMap parseRow

/-- The outcome of the `fetch` of ./src/world/biomes.csv as seen by
`tryLoadBiomesFromCSV`: a thrown error (network failure), a non-ok response,
or a successful text body. -/
inductive FetchOutcome where
  | fetchError
  | notOk
  | ok (text : String)
deriving Repr, DecidableEq

/-- `tryLoadBiomesFromCSV`: on fetch error or a non-ok response the active
prototype list is returned unchanged; on success the CSV is parsed and the
active list is replaced wholesale only when at least one row was parsed.
Returns (new active list, returned list). -/
def tryLoadBiomesFromCSV (fetch : FetchOutcome) (activeBiomes : List CSVRow) :
    List CSVRow × List CSVRow :=
  match fetch with
  | .fetchError => (activeBiomes, activeBiomes)
  | .notOk => (activeBiomes, activeBiomes)
  | .ok text =>
    let parsed := parseBiomesCSV text
    if parsed.length ≠ 0 then (parsed, parsed)
    else (activeBiomes, activeBiomes)

/-- The axis fields a produced CSV row can carry: a clamped finite value in
[0,1], or NaN (an unparsable field, which `clamp01` passes through). -/
def inUnitOrNaN (x : JSNum) : Prop :=
  (∃ q : ℚ, x = .num q ∧ 0 ≤ q ∧ q ≤ 1) ∨ x = .nan

/-- The original claim's reading of an ingested axis value: a finite number
in [0,1]. -/
def inUnit (x : JSNum) : Prop := ∃ q : ℚ, x = .num q ∧ 0 ≤ q ∧ q ≤ 1

/-- `DEFAULT_ALABAMA_BIOMES` from the classifier module: the built-in
prototype rows (with their palette colors attached by the `.map`). -/
def DEFAULT_ALABAMA_BIOMES : List CSVRow :=
  [⟨.num 1, "Appalachian Highlands Forest", "Talladega/Cheaha uplands",
      .num 0.45, .num 0.55, .num 0.85, .num 0.75, .num 0.00, .num 0.50, .num 0.20, "#2e6b3f"⟩,
   ⟨.num 2, "Sandstone Canyon & Falls", "Sipsey-style gorges & waterfalls",
      .num 0.50, .num 0.70, .num 0.60, .num 0.80, .num 0.00, .num 0.60, .num 0.10, "#4e7f9e"⟩,
   ⟨.num 3, "Karst Plateau & Caves", "Interior/Cumberland Plateau karst",
      .num 0.50, .num 0.55, .num 0.55, .num 0.55, .num 0.00, .num 0.60, .num 0.00, "#6a7d6f"⟩,
   ⟨.num 4, "Ridge-and-Valley Mixed Woods", "Appalachian ridge/valley belts",
      .num 0.50, .num 0.55, .num 0.65, .num 0.70, .num 0.00, .num 0.50, .num 0.10, "#3f6a54"⟩,
   ⟨.num 5, "Longleaf Pine Savanna", "Fire-maintained longleaf/wiregrass",
      .num 0.70, .num 0.55, .num 0.35, .num 0.30, .num 0.00, .num 0.45, .num 0.90, "#caa247"⟩,
   ⟨.num 6, "Pine Flatwoods", "Coastal Plain flatwoods",
      .num 0.75, .num 0.60, .num 0.25, .num 0.20, .num 0.00, .num 0.40, .num 0.50, "#4f7f64"⟩,
   ⟨.num 7, "Pitcher-Plant Seepage Bogs", "Gulf Coastal Plain seepage bogs",
      .num 0.80, .num 0.95, .num 0.20, .num 0.15, .num 0.00, .num 0.10, .num 0.60, "#9ed46f"⟩,
   ⟨.num 8, "Black Belt Prairie", "Chalk/limestone prairie arc",
      .num 0.65, .num 0.50, .num 0.30, .num 0.25, .num 0.00, .num 0.85, .num 0.20, "#cdbb76"⟩,
   ⟨.num 9, "Bottomland Hardwood & Swamp", "Major-river floodplains & sloughs",
      .num 0.70, .num 0.90, .num 0.20, .num 0.20, .num 0.00, .num 0.70, .num 0.05, "#2f5130"⟩,
   ⟨.num 10, "Shoal Rivers & Rocky Riffles", "Fall-line bedrock shoals",
      .num 0.60, .num 0.80, .num 0.35, .num 0.50, .num 0.00, .num 0.60, .num 0.05, "#5aa7c7"⟩,
   ⟨.num 11, "Mobile-Tensaw Delta", "Large deltaic swamp/bayous",
      .num 0.85, .num 1.00, .num 0.05, .num 0.15, .num 0.10, .num 0.60, .num 0.05, "#3b7f6b"⟩,
   ⟨.num 12, "Tidal Salt Marsh & Estuary", "Brackish marsh margins",
      .num 0.90, .num 1.00, .num 0.05, .num 0.10, .num 0.60, .num 0.50, .num 0.00, "#8db36a"⟩,
   ⟨.num 13, "Coastal Dune & Beach", "Barrier-island dune/beach systems",
      .num 0.95, .num 0.60, .num 0.05, .num 0.25, .num 1.00, .num 0.15, .num 0.00, "#e8d6a0"⟩,
   ⟨.num 14, "Maritime Forest & Scrub", "Back-dune oak/pine thickets",
      .num 0.90, .num 0.70, .num 0.08, .num 0.20, .num 0.40, .num 0.40, .num 0.00, "#6e8b5e"⟩]

/-- The row which `parseBiomesCSV` produces from the line
`1,L,A,0,0,0,0,0,0,0` (used as a concrete instance below). -/
def csvRowW : CSVRow :=
  ⟨.num 1, "L", "A", .num 0, .num 0, .num 0, .num 0, .num 0, .num 0, .num 0, "#2e6b3f"⟩

end Biomes

namespace WorldGen

/-- JS `>>> 0`: wrap an integer to [0, 2^32). -/
def toUint32 (n : Int) : Nat := (n % 4294967296).toNat

/-- `Math.imul`: 32-bit integer multiply.  The unsigned residue mod 2^32 is
kept; subsequent xor/shift steps depend only on the 32-bit pattern, which the
residue determines. -/
def imul (a b : Nat) : Nat := (a * b) % 4294967296

/-- `hash2i(ix, iy, seed)` from prng.js: FNV-style mixing of the two
coordinates and the seed with a Murmur-inspired final avalanche.  The
coordinate products are exact (the command works far inside the float64-exact
range). -/
def hash2i (ix iy : Int) (seed : Nat) : Nat :=
  let h0 := Nat.xor 2166136261 seed
  let h1 := imul (Nat.xor h0 (toUint32 (ix * 668265261))) 16777619
  let h2 := imul (Nat.xor h1 (toUint32 (iy * 374761393))) 16777619
  let h3 := Nat.xor h2 (h2 / 2 ^ 16)
  let h4 := imul h3 2246822507
  let h5 := Nat.xor h4 (h4 / 2 ^ 13)
  let h6 := imul h5 3266489909
  Nat.xor h6 (h6 / 2 ^ 16)

/-- `hash2f`: the hash scaled into [0,1) by division by 2^32. -/
def hash2f (ix iy : Int) (seed : Nat) : ℚ := (hash2i ix iy seed : ℚ) / 4294967296

/-- The quintic smootherstep fade `t³(t(6t−15)+10)` from world.js. -/
def fade (t : ℚ) : ℚ := t * t * t * (t * (t * 6 - 15) + 10)

/-- `lerp(a, b, t) = a + (b - a)·t`. -/
def lerp (a b t : ℚ) : ℚ := a + (b - a) * t

/-- `valueNoise2D(x, y, seed)`: bilinear interpolation with the fade easing of
the four lattice-corner hashes around (x, y). -/
def valueNoise2D (x y : ℚ) (seed : Nat) : ℚ :=
  let ix : Int := Int.floor x
  let iy : Int := Int.floor y
  let fx := x - ix
  let fy := y - iy
  let v00 := hash2f ix iy seed
  let v10 := hash2f (ix + 1) iy seed
  let v01 := hash2f ix (iy + 1) seed
  let v11 := hash2f (ix + 1) (iy + 1) seed
  let u := fade fx
  let v := fade fy
  let x0 := lerp v00 v10 u
  let x1 := lerp v01 v11 u
  lerp x0 x1 v

/-- The per-axis noise parameters of config.js (`octaves`, `frequency`,
`lacunarity`, `gain`). -/
structure NoiseParams where
  octaves : Nat
  frequency : ℚ
  lacunarity : ℚ
  gain : ℚ
deriving Repr, DecidableEq

/-- The octave loop of `fbm2`: state `(amp, sum, ampSum, nx, ny)` updated per
octave exactly as in the source; returns the final `(sum, ampSum)`. -/
def fbm2Loop (seed : Nat) (lac gain : ℚ) :
    Nat → ℚ → ℚ → ℚ → ℚ → ℚ → ℚ × ℚ
  | 0, _, sum, ampSum, _, _ => (sum, ampSum)
  | i + 1, amp, sum, ampSum, nx, ny =>
    let n := valueNoise2D nx ny seed
    fbm2Loop seed lac gain i (amp * gain) (sum + n * amp) (ampSum + amp)
      (nx * lac) (ny * lac)

/-- `fbm2(x, y, seed, params)`: the amplitude-weighted average of the octave
samples (`ampSum > 0 ? sum / ampSum : 0`). -/
def fbm2 (x y : ℚ) (seed : Nat) (p : NoiseParams) : ℚ :=
  let out := fbm2Loop seed p.lacunarity p.gain p.octaves 1 0 0
    (x * p.frequency) (y * p.frequency)
  if 0 < out.2 then out.1 / out.2 else 0

/-- `latSouth(y, scale) = 0.5·(1 + tanh(y / (scale || 4096)))` from world.js;
`scale || 4096` replaces a zero (falsy) scale by 4096. -/
noncomputable def latSouth (y scale : ℝ) : ℝ :=
  0.5 * (1 + Real.tanh (y / (if scale = 0 then 4096 else scale)))

end WorldGen

namespace WorldCache

/-- `VIEW_MODES` from world.js. -/
def VIEW_MODES : List String :=
  ["biomes", "temp", "moist", "elev", "rough", "sal", "fert", "fire"]

/-- JS `String.prototype.toLowerCase()` (character-wise; exact for the ASCII
mode strings involved here). -/
def toLowerStr (s : String) : String := String.mk (s.data.map Char.toLower)

/-- The `World` state relevant to the view-mode contract: the chunk-canvas
cache keyed by chunk coordinates and the active view mode.  Canvas contents
are opaque (`Chunk` type parameter). -/
structure WorldState (Chunk : Type) where
  chunks : List ((Int × Int) × Chunk)
  viewMode : String
deriving Repr, DecidableEq

/-- `setViewMode(mode)`: lowercase the mode, throw (`Except.error`, leaving
the caller's state untouched) on an unrecognized mode, otherwise adopt the
new mode and clear every cached chunk — unless the mode is unchanged, in
which case the state (cache included) is kept as is. -/
def setViewMode {Chunk : Type} (w : WorldState Chunk) (mode : String) :
    Except String (WorldState Chunk) :=
  let m := toLowerStr mode
  if m ∉ VIEW_MODES then
    Except.error ("Invalid view mode: " ++ mode)
  else if m ≠ w.viewMode then
    Except.ok { chunks := [], viewMode := m }
  else
    Except.ok w

end WorldCache



namespace FindBiome

theorem inv_empty (classify : Int → Int → Int) : Inv classify emptySearchState := by
  refine ⟨List.nodup_nil, ?_, ?_⟩ <;> simp [emptySearchState]

theorem cacheGet_mem : ∀ (l : List (Tile × Int)) (t : Tile) (v : Int),
    cacheGet l t = some v → (t, v) ∈ l := by
  intro l
  induction l with
  | nil => intro t v h; simp [cacheGet] at h
  | cons e rest ih =>
    intro t v h
    obtain ⟨p, w⟩ := e
    by_cases hp : p = t
    · subst hp
      simp [cacheGet] at h
      simp [h]
    · simp [cacheGet, hp] at h
      exact List.mem_cons_of_mem _ (ih t v h)

theorem visitTile_none {classify : Int → Int → Int} {st : SearchState} {t : Tile}
    (h : (visitTile classify st t).2 = none) : (visitTile classify st t).1 = st := by
  unfold visitTile at *
  by_cases hv : t ∈ st.visited
  · simp [hv]
  · simp only [hv, if_false] at h
    cases hcg : cacheGet st.cache t <;> simp [hcg] at h

theorem visitTile_visited_sub (classify : Int → Int → Int) (st : SearchState) (t : Tile) :
    ∀ p ∈ (visitTile classify st t).1.visited, p = t ∨ p ∈ st.visited := by
  intro p hp
  unfold visitTile at hp
  by_cases hv : t ∈ st.visited
  · simp [hv] at hp; exact Or.inr hp
  · simp only [hv, if_false] at hp
    cases hcg : cacheGet st.cache t <;> simp [hcg] at hp <;> tauto

theorem visitTile_visited_mono {classify : Int → Int → Int} {st : SearchState} {t : Tile} :
    ∀ p ∈ st.visited, p ∈ (visitTile classify st t).1.visited := by
  intro p hp
  unfold visitTile
  by_cases hv : t ∈ st.visited
  · simpa [hv] using hp
  · simp only [hv, if_false]
    cases hcg : cacheGet st.cache t <;> simp [hcg, hp]

theorem visitTile_some_val {classify : Int → Int → Int} {st : SearchState} {t : Tile}
    {v : Int} (hinv : Inv classify st) (h : (visitTile classify st t).2 = some v) :
    v = classify t.1 t.2 := by
  unfold visitTile at h
  by_cases hv : t ∈ st.visited
  · simp [hv] at h
  · simp only [hv, if_false] at h
    cases hcg : cacheGet st.cache t with
    | none => simp [hcg] at h; omega
    | some w =>
      simp [hcg] at h
      subst h
      exact hinv.2.2 t w (cacheGet_mem _ _ _ hcg)

theorem visitTile_inv {classify : Int → Int → Int} {st : SearchState} {t : Tile}
    (hinv : Inv classify st) : Inv classify (visitTile classify st t).1 := by
  obtain ⟨h1, h2, h3⟩ := hinv
  unfold visitTile
  by_cases hv : t ∈ st.visited
  · simpa [hv] using ⟨h1, h2, h3⟩
  · simp only [hv, if_false]
    cases hcg : cacheGet st.cache t with
    | some w =>
      refine ⟨h1, ?_, h3⟩
      intro p hp
      exact List.mem_cons_of_mem _ (h2 p hp)
    | none =>
      refine ⟨?_, ?_, ?_⟩
      · have ht : t ∉ st.calls := fun hc => hv (h2 t hc)
        simp [List.nodup_append, h1, ht]
      · intro p hp
        simp at hp
        rcases hp with hp | hp
        · exact List.mem_cons_of_mem _ (h2 p hp)
        · simp [hp]
      · intro p v hpv
        simp at hpv
        rcases hpv with ⟨hp, hv'⟩ | hpv
        · subst hp; subst hv'; rfl
        · exact h3 p v hpv

end FindBiome

namespace FindBiome

theorem natAbs_mul_sub_le {i r s : Nat} (h : i ≤ 2 * r) :
    (((i * s : Nat) : Int) - ((r * s : Nat) : Int)).natAbs ≤ r * s := by
  have hmul : i * s ≤ 2 * (r * s) := by
    calc i * s ≤ (2 * r) * s := Nat.mul_le_mul_right s h
    _ = 2 * (r * s) := by ring
  omega

/-- Every tile emitted by `forEachRing` at radius `r` and stride `s ≥ 1` lies
at Chebyshev distance exactly `r * s` from the center. -/
theorem mem_ringPoints {tx0 ty0 : Int} {r s : Nat} {t : Tile}
    (ht : t ∈ ringPoints tx0 ty0 r s) :
    chebDist tx0 ty0 t.1 t.2 = r * s := by
  obtain ⟨a, b⟩ := t
  unfold ringPoints at ht
  by_cases hr : r = 0
  · subst hr
    simp at ht
    obtain ⟨ha, hb⟩ := ht
    subst ha; subst hb
    simp [chebDist]
  · simp only [hr, if_false, List.mem_append, List.mem_flatMap, List.mem_range] at ht
    rcases ht with ⟨i, hi, hpt⟩ | ⟨j, hj, hpt⟩
    · have hile : i ≤ 2 * r := by omega
      have hkey := natAbs_mul_sub_le (r := r) (s := s) hile
      simp only [List.mem_cons, List.not_mem_nil, or_false, Prod.mk.injEq] at hpt
      rcases hpt with ⟨ha, hb⟩ | ⟨ha, hb⟩ <;> subst ha <;> subst hb <;>
          simp only [chebDist]
      · have h1 : tx0 - ((r * s : Nat) : Int) + ((i * s : Nat) : Int) - tx0 =
            ((i * s : Nat) : Int) - ((r * s : Nat) : Int) := by ring
        have h2 : ty0 - ((r * s : Nat) : Int) - ty0 = -(((r * s : Nat) : Int)) := by ring
        rw [h1, h2, Int.natAbs_neg, Int.natAbs_ofNat]
        exact Nat.max_eq_right hkey
      · have h1 : tx0 - ((r * s : Nat) : Int) + ((i * s : Nat) : Int) - tx0 =
            ((i * s : Nat) : Int) - ((r * s : Nat) : Int) := by ring
        have h2 : ty0 + ((r * s : Nat) : Int) - ty0 = ((r * s : Nat) : Int) := by ring
        rw [h1, h2, Int.natAbs_ofNat]
        exact Nat.max_eq_right hkey
    · have hjle : j + 1 ≤ 2 * r := by omega
      have hkey := natAbs_mul_sub_le (i := j + 1) (r := r) (s := s) hjle
      simp only [List.mem_cons, List.not_mem_nil, or_false, Prod.mk.injEq] at hpt
      rcases hpt with ⟨ha, hb⟩ | ⟨ha, hb⟩ <;> subst ha <;> subst hb <;>
          simp only [chebDist]
      · have h1 : tx0 - ((r * s : Nat) : Int) - tx0 = -(((r * s : Nat) : Int)) := by ring
        have h2 : ty0 - ((r * s : Nat) : Int) + (((j + 1) * s : Nat) : Int) - ty0 =
            (((j + 1) * s : Nat) : Int) - ((r * s : Nat) : Int) := by ring
        rw [h1, h2, Int.natAbs_neg, Int.natAbs_ofNat]
        exact Nat.max_eq_left hkey
      · have h1 : tx0 + ((r * s : Nat) : Int) - tx0 = ((r * s : Nat) : Int) := by ring
        have h2 : ty0 - ((r * s : Nat) : Int) + (((j + 1) * s : Nat) : Int) - ty0 =
            (((j + 1) * s : Nat) : Int) - ((r * s : Nat) : Int) := by ring
        rw [h1, h2, Int.natAbs_ofNat]
        exact Nat.max_eq_left hkey

theorem coarseRing_inv (classify : Int → Int → Int) (tgt : Int) :
    ∀ (pts : List Tile) (st : SearchState) (ck : Nat) (fd : Option Tile),
      Inv classify st → Inv classify (coarseRing classify tgt st ck fd pts).1 := by
  intro pts
  induction pts with
  | nil => intro st ck fd h; simpa [coarseRing] using h
  | cons t rest ih =>
    intro st ck fd h
    have hst1 : Inv classify (visitTile classify st t).1 := visitTile_inv h
    rcases hvt : visitTile classify st t with ⟨st1, o⟩
    rw [hvt] at hst1
    cases o <;> simp only [coarseRing, hvt] <;> exact ih _ _ _ hst1

theorem coarseRing_found (classify : Int → Int → Int) (tgt : Int) :
    ∀ (pts : List Tile) (st : SearchState) (ck : Nat) (fd : Option Tile),
      Inv classify st →
      ∀ t', (coarseRing classify tgt st ck fd pts).2.2 = some t' →
        fd = some t' ∨ (t' ∈ pts ∧ classify t'.1 t'.2 = tgt) := by
  intro pts
  induction pts with
  | nil => intro st ck fd _ t' h; simp [coarseRing] at h; exact Or.inl h
  | cons t rest ih =>
    intro st ck fd hinv t' h
    have hst1 : Inv classify (visitTile classify st t).1 := visitTile_inv hinv
    rcases hvt : visitTile classify st t with ⟨st1, o⟩
    rw [hvt] at hst1
    cases o with
    | none =>
      simp only [coarseRing, hvt] at h
      rcases ih st1 ck fd hst1 t' h with h1 | h1
      · exact Or.inl h1
      · exact Or.inr ⟨List.mem_cons_of_mem _ h1.1, h1.2⟩
    | some v =>
      simp only [coarseRing, hvt] at h
      have hval : v = classify t.1 t.2 := by
        have := visitTile_some_val hinv (v := v) (t := t)
        rw [hvt] at this
        exact this rfl
      rcases ih st1 (ck + 1) _ hst1 t' h with h1 | h1
      · by_cases hc : v = tgt ∧ fd = none
        · rw [if_pos hc] at h1
          have ht' : t = t' := by injection h1
          subst ht'
          exact Or.inr ⟨List.mem_cons_self _ _, by rw [← hval, hc.1]⟩
        · rw [if_neg hc] at h1
          exact Or.inl h1
      · exact Or.inr ⟨List.mem_cons_of_mem _ h1.1, h1.2⟩

theorem coarseRing_visited (classify : Int → Int → Int) (tgt : Int) :
    ∀ (pts : List Tile) (st : SearchState) (ck : Nat) (fd : Option Tile),
      ∀ p ∈ (coarseRing classify tgt st ck fd pts).1.visited,
        p ∈ st.visited ∨ p ∈ pts := by
  intro pts
  induction pts with
  | nil => intro st ck fd p hp; simp [coarseRing] at hp; exact Or.inl hp
  | cons t rest ih =>
    intro st ck fd p hp
    rcases hvt : visitTile classify st t with ⟨st1, o⟩
    have hsub : ∀ q ∈ st1.visited, q = t ∨ q ∈ st.visited := by
      intro q hq
      have := visitTile_visited_sub classify st t q
      rw [hvt] at this
      exact this hq
    cases o <;> simp only [coarseRing, hvt] at hp
    · rcases ih st1 ck fd p hp with h1 | h1
      · rcases hsub p h1 with h2 | h2
        · exact Or.inr (h2 ▸ List.mem_cons_self _ _)
        · exact Or.inl h2
      · exact Or.inr (List.mem_cons_of_mem _ h1)
    · rcases ih st1 (ck + 1) _ p hp with h1 | h1
      · rcases hsub p h1 with h2 | h2
        · exact Or.inr (h2 ▸ List.mem_cons_self _ _)
        · exact Or.inl h2
      · exact Or.inr (List.mem_cons_of_mem _ h1)

end FindBiome

namespace FindBiome

theorem coarseRingsLoop_inv (classify : Int → Int → Int) (tx0 ty0 : Int) (tgt : Int)
    (step : Nat) : ∀ (rs : List Nat) (st : SearchState) (ck : Nat),
    Inv classify st → Inv classify (coarseRingsLoop classify tx0 ty0 tgt step rs st ck).1 := by
  intro rs
  induction rs with
  | nil => intro st ck h; simpa [coarseRingsLoop] using h
  | cons r rest ih =>
    intro st ck h
    have hring := coarseRing_inv classify tgt (ringPoints tx0 ty0 r step) st ck none h
    rcases hcr : coarseRing classify tgt st ck none (ringPoints tx0 ty0 r step)
      with ⟨st1, ck1, fd⟩
    rw [hcr] at hring
    cases fd <;> simp only [coarseRingsLoop, hcr]
    · exact ih st1 ck1 hring
    · exact hring

theorem coarseRingsLoop_hit (classify : Int → Int → Int) (tx0 ty0 : Int) (tgt : Int)
    (step : Nat) : ∀ (rs : List Nat) (st : SearchState) (ck : Nat),
    Inv classify st →
    ∀ h, (coarseRingsLoop classify tx0 ty0 tgt step rs st ck).2.2 = some h →
      ∃ r ∈ rs, (h.tx, h.ty) ∈ ringPoints tx0 ty0 r step ∧
        classify h.tx h.ty = tgt ∧ h.cheb = chebDist tx0 ty0 h.tx h.ty := by
  intro rs
  induction rs with
  | nil => intro st ck _ h hh; simp [coarseRingsLoop] at hh
  | cons r rest ih =>
    intro st ck hinv h hh
    have hring := coarseRing_inv classify tgt (ringPoints tx0 ty0 r step) st ck none hinv
    have hfound := coarseRing_found classify tgt (ringPoints tx0 ty0 r step) st ck none hinv
    rcases hcr : coarseRing classify tgt st ck none (ringPoints tx0 ty0 r step)
      with ⟨st1, ck1, fd⟩
    rw [hcr] at hring hfound
    cases fd with
    | none =>
      simp only [coarseRingsLoop, hcr] at hh
      obtain ⟨r', hr', hmem, hcl, hcheb⟩ := ih st1 ck1 hring h hh
      exact ⟨r', List.mem_cons_of_mem _ hr', hmem, hcl, hcheb⟩
    | some t =>
      simp only [coarseRingsLoop, hcr] at hh
      rcases hfound t rfl with h1 | h1
      · exact absurd h1 (by simp)
      · obtain ⟨hmem, hcl⟩ := h1
        injection hh with hh
        subst hh
        exact ⟨r, List.mem_cons_self _ _, by simpa using hmem, by simpa using hcl, rfl⟩

theorem coarseRingsLoop_visited (classify : Int → Int → Int) (tx0 ty0 : Int) (tgt : Int)
    (step : Nat) : ∀ (rs : List Nat) (st : SearchState) (ck : Nat),
    ∀ p ∈ (coarseRingsLoop classify tx0 ty0 tgt step rs st ck).1.visited,
      p ∈ st.visited ∨ ∃ r ∈ rs, p ∈ ringPoints tx0 ty0 r step := by
  intro rs
  induction rs with
  | nil => intro st ck p hp; simp [coarseRingsLoop] at hp; exact Or.inl hp
  | cons r rest ih =>
    intro st ck p hp
    have hring := coarseRing_visited classify tgt
      (ringPoints tx0 ty0 r step) st ck none
    rcases hcr : coarseRing classify tgt st ck none (ringPoints tx0 ty0 r step)
      with ⟨st1, ck1, fd⟩
    rw [hcr] at hring
    cases fd <;> simp only [coarseRingsLoop, hcr] at hp
    · rcases ih st1 ck1 p hp with h1 | ⟨r', hr', hmem⟩
      · rcases hring p h1 with h2 | h2
        · exact Or.inl h2
        · exact Or.inr ⟨r, List.mem_cons_self _ _, h2⟩
      · exact Or.inr ⟨r', List.mem_cons_of_mem _ hr', hmem⟩
    · rcases hring p hp with h2 | h2
      · exact Or.inl h2
      · exact Or.inr ⟨r, List.mem_cons_self _ _, h2⟩

theorem coarseFirstHit_inv (classify : Int → Int → Int) (tx0 ty0 : Int) (tgt : Int)
    (step maxCheb : Nat) (st : SearchState) (hinv : Inv classify st) :
    Inv classify (coarseFirstHit classify tx0 ty0 tgt step maxCheb st).1 :=
  coarseRingsLoop_inv classify tx0 ty0 tgt step _ _ _ hinv

/-- A hit reported by `coarseFirstHit` is a genuine match whose recorded `cheb`
is its Chebyshev distance from the start, within `maxCheb` (for strides ≥ 1). -/
theorem coarseFirstHit_hit (classify : Int → Int → Int) (tx0 ty0 : Int) (tgt : Int)
    (step maxCheb : Nat) (st : SearchState) (hstep : 1 ≤ step) (hinv : Inv classify st) :
    ∀ h, (coarseFirstHit classify tx0 ty0 tgt step maxCheb st).2 = some h →
      classify h.tx h.ty = tgt ∧ h.cheb = chebDist tx0 ty0 h.tx h.ty ∧ h.cheb ≤ maxCheb := by
  intro h hh
  obtain ⟨r, hr, hmem, hcl, hcheb⟩ := coarseRingsLoop_hit classify tx0 ty0 tgt step _ st 0 hinv h hh
  refine ⟨hcl, hcheb, ?_⟩
  have hrs : chebDist tx0 ty0 h.tx h.ty = r * step := mem_ringPoints hmem
  rw [hcheb, hrs]
  simp only [List.mem_range] at hr
  have hr' : r ≤ maxCheb / Nat.max 1 step := by omega
  have hmax : Nat.max 1 step = step := Nat.max_eq_right hstep
  calc r * step ≤ (maxCheb / Nat.max 1 step) * step := Nat.mul_le_mul_right _ hr'
  _ = (maxCheb / step) * step := by rw [hmax]
  _ ≤ maxCheb := Nat.div_mul_le_self _ _

/-- Every tile visited by `coarseFirstHit` was already visited or lies within
`maxCheb` of the start (for strides ≥ 1). -/
theorem coarseFirstHit_visited (classify : Int → Int → Int) (tx0 ty0 : Int) (tgt : Int)
    (step maxCheb : Nat) (st : SearchState) (hstep : 1 ≤ step) :
    ∀ p ∈ (coarseFirstHit classify tx0 ty0 tgt step maxCheb st).1.visited,
      p ∈ st.visited ∨ chebDist tx0 ty0 p.1 p.2 ≤ maxCheb := by
  intro p hp
  rcases coarseRingsLoop_visited classify tx0 ty0 tgt step _ st 0 p hp with h1 | ⟨r, hr, hmem⟩
  · exact Or.inl h1
  · right
    have hrs : chebDist tx0 ty0 p.1 p.2 = r * step := mem_ringPoints hmem
    simp only [List.mem_range] at hr
    have hr' : r ≤ maxCheb / Nat.max 1 step := by omega
    have hmax : Nat.max 1 step = step := Nat.max_eq_right hstep
    rw [hrs]
    calc r * step ≤ (maxCheb / Nat.max 1 step) * step := Nat.mul_le_mul_right _ hr'
    _ = (maxCheb / step) * step := by rw [hmax]
    _ ≤ maxCheb := Nat.div_mul_le_self _ _

end FindBiome

namespace FindBiome

theorem exactRing_inv (classify : Int → Int → Int) (tx0 ty0 : Int) (tgt : Int) :
    ∀ (pts : List Tile) (st : SearchState) (ck : Nat) (best : Option Best),
      Inv classify st → Inv classify (exactRing classify tx0 ty0 tgt st ck best pts).1 := by
  intro pts
  induction pts with
  | nil => intro st ck best h; simpa [exactRing] using h
  | cons t rest ih =>
    intro st ck best h
    have hst1 : Inv classify (visitTile classify st t).1 := visitTile_inv h
    rcases hvt : visitTile classify st t with ⟨st1, o⟩
    rw [hvt] at hst1
    cases o <;> simp only [exactRing, hvt] <;> exact ih _ _ _ hst1

theorem exactRing_best (classify : Int → Int → Int) (tx0 ty0 : Int) (tgt : Int) :
    ∀ (pts : List Tile) (st : SearchState) (ck : Nat) (best : Option Best),
      Inv classify st →
      ∀ b, (exactRing classify tx0 ty0 tgt st ck best pts).2.2 = some b →
        best = some b ∨ ((b.tx, b.ty) ∈ pts ∧ classify b.tx b.ty = tgt ∧
          b.d2 = dist2Tiles tx0 ty0 b.tx b.ty) := by
  intro pts
  induction pts with
  | nil => intro st ck best _ b h; simp [exactRing] at h; exact Or.inl h
  | cons t rest ih =>
    intro st ck best hinv b h
    have hst1 : Inv classify (visitTile classify st t).1 := visitTile_inv hinv
    rcases hvt : visitTile classify st t with ⟨st1, o⟩
    rw [hvt] at hst1
    cases o with
    | none =>
      simp only [exactRing, hvt] at h
      rcases ih st1 ck best hst1 b h with h1 | h1
      · exact Or.inl h1
      · exact Or.inr ⟨List.mem_cons_of_mem _ h1.1, h1.2⟩
    | some v =>
      simp only [exactRing, hvt] at h
      have hval : v = classify t.1 t.2 := by
        have := visitTile_some_val hinv (v := v) (t := t)
        rw [hvt] at this
        exact this rfl
      rcases ih st1 (ck + 1) _ hst1 b h with h1 | h1
      · by_cases hc : v = tgt
        · rw [if_pos hc] at h1
          cases best with
          | none =>
            have h2 : some (⟨t.1, t.2, dist2Tiles tx0 ty0 t.1 t.2⟩ : Best) = some b := h1
            simp only [Option.some.injEq] at h2
            subst h2
            exact Or.inr ⟨List.mem_cons_self _ _, by simpa using hc ▸ hval.symm, rfl⟩
          | some b0 =>
            have h2 : (if dist2Tiles tx0 ty0 t.1 t.2 < b0.d2
                then some (⟨t.1, t.2, dist2Tiles tx0 ty0 t.1 t.2⟩ : Best)
                else some b0) = some b := h1
            by_cases hd : dist2Tiles tx0 ty0 t.1 t.2 < b0.d2
            · rw [if_pos hd] at h2
              simp only [Option.some.injEq] at h2
              subst h2
              exact Or.inr ⟨List.mem_cons_self _ _, by simpa using hc ▸ hval.symm, rfl⟩
            · rw [if_neg hd] at h2
              exact Or.inl h2
        · rw [if_neg hc] at h1
          exact Or.inl h1
      · exact Or.inr ⟨List.mem_cons_of_mem _ h1.1, h1.2⟩

theorem exactRing_visited (classify : Int → Int → Int) (tx0 ty0 : Int) (tgt : Int) :
    ∀ (pts : List Tile) (st : SearchState) (ck : Nat) (best : Option Best),
      ∀ p ∈ (exactRing classify tx0 ty0 tgt st ck best pts).1.visited,
        p ∈ st.visited ∨ p ∈ pts := by
  intro pts
  induction pts with
  | nil => intro st ck best p hp; simp [exactRing] at hp; exact Or.inl hp
  | cons t rest ih =>
    intro st ck best p hp
    rcases hvt : visitTile classify st t with ⟨st1, o⟩
    have hsub : ∀ q ∈ st1.visited, q = t ∨ q ∈ st.visited := by
      intro q hq
      have := visitTile_visited_sub classify st t q
      rw [hvt] at this
      exact this hq
    cases o <;> simp only [exactRing, hvt] at hp
    · rcases ih st1 ck best p hp with h1 | h1
      · rcases hsub p h1 with h2 | h2
        · exact Or.inr (h2 ▸ List.mem_cons_self _ _)
        · exact Or.inl h2
      · exact Or.inr (List.mem_cons_of_mem _ h1)
    · rcases ih st1 (ck + 1) _ p hp with h1 | h1
      · rcases hsub p h1 with h2 | h2
        · exact Or.inr (h2 ▸ List.mem_cons_self _ _)
        · exact Or.inl h2
      · exact Or.inr (List.mem_cons_of_mem _ h1)

theorem exactRingsLoop_inv (classify : Int → Int → Int) (tx0 ty0 : Int) (tgt : Int) :
    ∀ (rs : List Nat) (st : SearchState) (ck : Nat) (best : Option Best),
      Inv classify st →
      Inv classify (exactRingsLoop classify tx0 ty0 tgt rs st ck best).1 := by
  intro rs
  induction rs with
  | nil => intro st ck best h; simpa [exactRingsLoop] using h
  | cons r rest ih =>
    intro st ck best h
    have hring := exactRing_inv classify tx0 ty0 tgt (ringPoints tx0 ty0 r 1) st ck best h
    rcases hcr : exactRing classify tx0 ty0 tgt st ck best (ringPoints tx0 ty0 r 1)
      with ⟨st1, ck1, b1⟩
    rw [hcr] at hring
    cases b1 with
    | none => simp only [exactRingsLoop, hcr]; exact ih st1 ck1 none hring
    | some b =>
      simp only [exactRingsLoop, hcr]
      by_cases hle : b.d2 ≤ (r : Int) * (r : Int)
      · rw [if_pos hle]; exact hring
      · rw [if_neg hle]; exact ih st1 ck1 (some b) hring

theorem exactRingsLoop_best (classify : Int → Int → Int) (tx0 ty0 : Int) (tgt : Int) :
    ∀ (rs : List Nat) (st : SearchState) (ck : Nat) (best : Option Best),
      Inv classify st →
      ∀ b, (exactRingsLoop classify tx0 ty0 tgt rs st ck best).2.2 = some b →
        best = some b ∨ ∃ r ∈ rs, (b.tx, b.ty) ∈ ringPoints tx0 ty0 r 1 ∧
          classify b.tx b.ty = tgt ∧ b.d2 = dist2Tiles tx0 ty0 b.tx b.ty := by
  intro rs
  induction rs with
  | nil => intro st ck best _ b h; simp [exactRingsLoop] at h; exact Or.inl h
  | cons r rest ih =>
    intro st ck best hinv b h
    have hring := exactRing_inv classify tx0 ty0 tgt (ringPoints tx0 ty0 r 1) st ck best hinv
    have hbest := exactRing_best classify tx0 ty0 tgt (ringPoints tx0 ty0 r 1) st ck best hinv
    rcases hcr : exactRing classify tx0 ty0 tgt st ck best (ringPoints tx0 ty0 r 1)
      with ⟨st1, ck1, b1⟩
    rw [hcr] at hring hbest
    cases b1 with
    | none =>
      simp only [exactRingsLoop, hcr] at h
      rcases ih st1 ck1 none hring b h with h1 | ⟨r', hr', hrest⟩
      · exact absurd h1 (by simp)
      · exact Or.inr ⟨r', List.mem_cons_of_mem _ hr', hrest⟩
    | some bb =>
      simp only [exactRingsLoop, hcr] at h
      have hbb := hbest bb rfl
      by_cases hle : bb.d2 ≤ (r : Int) * (r : Int)
      · rw [if_pos hle] at h
        simp only [Option.some.injEq] at h
        subst h
        rcases hbb with h1 | h1
        · exact Or.inl h1
        · exact Or.inr ⟨r, List.mem_cons_self _ _, h1⟩
      · rw [if_neg hle] at h
        rcases ih st1 ck1 (some bb) hring b h with h1 | ⟨r', hr', hrest⟩
        · simp only [Option.some.injEq] at h1
          subst h1
          rcases hbb with h2 | h2
          · exact Or.inl h2
          · exact Or.inr ⟨r, List.mem_cons_self _ _, h2⟩
        · exact Or.inr ⟨r', List.mem_cons_of_mem _ hr', hrest⟩

theorem exactRingsLoop_visited (classify : Int → Int → Int) (tx0 ty0 : Int) (tgt : Int) :
    ∀ (rs : List Nat) (st : SearchState) (ck : Nat) (best : Option Best),
      ∀ p ∈ (exactRingsLoop classify tx0 ty0 tgt rs st ck best).1.visited,
        p ∈ st.visited ∨ ∃ r ∈ rs, p ∈ ringPoints tx0 ty0 r 1 := by
  intro rs
  induction rs with
  | nil => intro st ck best p hp; simp [exactRingsLoop] at hp; exact Or.inl hp
  | cons r rest ih =>
    intro st ck best p hp
    have hring := exactRing_visited classify tx0 ty0 tgt (ringPoints tx0 ty0 r 1) st ck best
    rcases hcr : exactRing classify tx0 ty0 tgt st ck best (ringPoints tx0 ty0 r 1)
      with ⟨st1, ck1, b1⟩
    rw [hcr] at hring
    cases b1 with
    | none =>
      simp only [exactRingsLoop, hcr] at hp
      rcases ih st1 ck1 none p hp with h1 | ⟨r', hr', hmem⟩
      · rcases hring p h1 with h2 | h2
        · exact Or.inl h2
        · exact Or.inr ⟨r, List.mem_cons_self _ _, h2⟩
      · exact Or.inr ⟨r', List.mem_cons_of_mem _ hr', hmem⟩
    | some bb =>
      simp only [exactRingsLoop, hcr] at hp
      by_cases hle : bb.d2 ≤ (r : Int) * (r : Int)
      · rw [if_pos hle] at hp
        rcases hring p hp with h2 | h2
        · exact Or.inl h2
        · exact Or.inr ⟨r, List.mem_cons_self _ _, h2⟩
      · rw [if_neg hle] at hp
        rcases ih st1 ck1 (some bb) p hp with h1 | ⟨r', hr', hmem⟩
        · rcases hring p h1 with h2 | h2
          · exact Or.inl h2
          · exact Or.inr ⟨r, List.mem_cons_self _ _, h2⟩
        · exact Or.inr ⟨r', List.mem_cons_of_mem _ hr', hmem⟩

theorem exactNearestWithinBound_inv (classify : Int → Int → Int) (tx0 ty0 : Int)
    (tgt : Int) (ub : Nat) (st : SearchState) (hinv : Inv classify st) :
    Inv classify (exactNearestWithinBound classify tx0 ty0 tgt ub st).1 := by
  have h := exactRingsLoop_inv classify tx0 ty0 tgt
    (List.range (ub + 1)) st 0 none hinv
  unfold exactNearestWithinBound
  rcases hel : exactRingsLoop classify tx0 ty0 tgt (List.range (ub + 1)) st 0 none
    with ⟨st1, ck1, b1⟩
  rw [hel] at h
  cases b1 <;> simpa using h

/-- A result of `exactNearestWithinBound` is a genuine match at Chebyshev
distance at most `ubCheb`, carrying its true squared Euclidean distance. -/
theorem exactNearestWithinBound_some (classify : Int → Int → Int) (tx0 ty0 : Int)
    (tgt : Int) (ub : Nat) (st : SearchState) (hinv : Inv classify st) :
    ∀ ex, (exactNearestWithinBound classify tx0 ty0 tgt ub st).2 = some ex →
      classify ex.tx ex.ty = tgt ∧ chebDist tx0 ty0 ex.tx ex.ty ≤ ub ∧
        ex.d2 = dist2Tiles tx0 ty0 ex.tx ex.ty := by
  intro ex hex
  unfold exactNearestWithinBound at hex
  have h := exactRingsLoop_best classify tx0 ty0 tgt
    (List.range (ub + 1)) st 0 none hinv
  rcases hel : exactRingsLoop classify tx0 ty0 tgt (List.range (ub + 1)) st 0 none
    with ⟨st1, ck1, b1⟩
  rw [hel] at h hex
  cases b1 with
  | none => simp at hex
  | some b =>
    simp only [Option.some.injEq] at hex
    rcases h b rfl with h1 | ⟨r, hr, hmem, hcl, hd2⟩
    · simp at h1
    · have hcheb : chebDist tx0 ty0 b.tx b.ty = r * 1 := mem_ringPoints hmem
      simp only [List.mem_range] at hr
      subst hex
      refine ⟨hcl, ?_, hd2⟩
      simp only [ExactRes.tx, ExactRes.ty]
      omega

/-- Every tile visited by `exactNearestWithinBound` was already visited or
lies within `ubCheb` of the start. -/
theorem exactNearestWithinBound_visited (classify : Int → Int → Int) (tx0 ty0 : Int)
    (tgt : Int) (ub : Nat) (st : SearchState) :
    ∀ p ∈ (exactNearestWithinBound classify tx0 ty0 tgt ub st).1.visited,
      p ∈ st.visited ∨ chebDist tx0 ty0 p.1 p.2 ≤ ub := by
  intro p hp
  unfold exactNearestWithinBound at hp
  have h := exactRingsLoop_visited classify tx0 ty0 tgt (List.range (ub + 1)) st 0 none
  rcases hel : exactRingsLoop classify tx0 ty0 tgt (List.range (ub + 1)) st 0 none
    with ⟨st1, ck1, b1⟩
  rw [hel] at hp h
  have hp1 : p ∈ st1.visited := by cases b1 <;> simpa using hp
  rcases h p hp1 with h1 | ⟨r, hr, hmem⟩
  · exact Or.inl h1
  · right
    have hcheb : chebDist tx0 ty0 p.1 p.2 = r * 1 := mem_ringPoints hmem
    simp only [List.mem_range] at hr
    omega

end FindBiome

namespace FindBiome

/-- The concrete stride list for `CHUNK_SIZE = 64`. -/
theorem coarseSteps_eq : coarseSteps = [64, 32, 16, 8, 4, 2] := by
  have h1 : buildSteps 1 = [] := by rw [buildSteps]; norm_num
  have h2 : buildSteps 2 = [2] := by rw [buildSteps]; norm_num [h1]
  have h4 : buildSteps 4 = [4, 2] := by rw [buildSteps]; norm_num [h2]
  have h8 : buildSteps 8 = [8, 4, 2] := by rw [buildSteps]; norm_num [h4]
  have h16 : buildSteps 16 = [16, 8, 4, 2] := by rw [buildSteps]; norm_num [h8]
  have h32 : buildSteps 32 = [32, 16, 8, 4, 2] := by rw [buildSteps]; norm_num [h16]
  have h64 : buildSteps 64 = [64, 32, 16, 8, 4, 2] := by rw [buildSteps]; norm_num [h32]
  have hmax : Nat.max 2 CHUNK_SIZE = 64 := by decide
  simp only [coarseSteps, hmax, h64]
  have hfold : (List.foldl (fun acc extra => if extra ∉ acc ∧ extra ≤ 64 then acc ++ [extra] else acc)
      [64, 32, 16, 8, 4, 2] [16, 8, 4, 2]) = [64, 32, 16, 8, 4, 2] := by decide
  rw [hfold]
  exact List.mergeSort_of_sorted (by decide)

theorem coarsePhase_inv (classify : Int → Int → Int) (tx0 ty0 : Int) (tgt : Int)
    (ub : Nat) : ∀ (steps : List Nat) (st : SearchState) (stats : List (Nat × Nat)),
    Inv classify st → Inv classify (coarsePhase classify tx0 ty0 tgt ub steps st stats).1 := by
  intro steps
  induction steps with
  | nil => intro st stats h; simpa [coarsePhase] using h
  | cons step rest ih =>
    intro st stats h
    have hfh := coarseFirstHit_inv classify tx0 ty0 tgt step ub st h
    rcases hch : coarseFirstHit classify tx0 ty0 tgt step ub st with ⟨st1, hit⟩
    rw [hch] at hfh
    cases hit with
    | none => simp only [coarsePhase, hch]; exact ih st1 _ hfh
    | some hitv => simp only [coarsePhase, hch]; exact hfh

theorem coarsePhase_hit (classify : Int → Int → Int) (tx0 ty0 : Int) (tgt : Int)
    (ub : Nat) : ∀ (steps : List Nat) (st : SearchState) (stats : List (Nat × Nat)),
    (∀ s ∈ steps, 1 ≤ s) → Inv classify st →
    ∀ h, (coarsePhase classify tx0 ty0 tgt ub steps st stats).2.2 = some h →
      classify h.tx h.ty = tgt ∧ h.cheb = chebDist tx0 ty0 h.tx h.ty ∧ h.cheb ≤ ub := by
  intro steps
  induction steps with
  | nil => intro st stats _ _ h hh; simp [coarsePhase] at hh
  | cons step rest ih =>
    intro st stats hpos hinv h hh
    have hfh := coarseFirstHit_inv classify tx0 ty0 tgt step ub st hinv
    have hhit := coarseFirstHit_hit classify tx0 ty0 tgt step ub st
      (hpos step (List.mem_cons_self _ _)) hinv
    rcases hch : coarseFirstHit classify tx0 ty0 tgt step ub st with ⟨st1, hit⟩
    rw [hch] at hfh hhit
    cases hit with
    | none =>
      simp only [coarsePhase, hch] at hh
      exact ih st1 _ (fun s hs => hpos s (List.mem_cons_of_mem _ hs)) hfh h hh
    | some hitv =>
      simp only [coarsePhase, hch] at hh
      simp only [Option.some.injEq] at hh
      subst hh
      exact hhit hitv rfl

theorem coarsePhase_visited (classify : Int → Int → Int) (tx0 ty0 : Int) (tgt : Int)
    (ub : Nat) : ∀ (steps : List Nat) (st : SearchState) (stats : List (Nat × Nat)),
    (∀ s ∈ steps, 1 ≤ s) →
    ∀ p ∈ (coarsePhase classify tx0 ty0 tgt ub steps st stats).1.visited,
      p ∈ st.visited ∨ chebDist tx0 ty0 p.1 p.2 ≤ ub := by
  intro steps
  induction steps with
  | nil => intro st stats _ p hp; simp [coarsePhase] at hp; exact Or.inl hp
  | cons step rest ih =>
    intro st stats hpos p hp
    have hvis := coarseFirstHit_visited classify tx0 ty0 tgt step ub st
      (hpos step (List.mem_cons_self _ _))
    rcases hch : coarseFirstHit classify tx0 ty0 tgt step ub st with ⟨st1, hit⟩
    rw [hch] at hvis
    cases hit with
    | none =>
      simp only [coarsePhase, hch] at hp
      rcases ih st1 _ (fun s hs => hpos s (List.mem_cons_of_mem _ hs)) p hp with h1 | h1
      · exact hvis p h1
      · exact Or.inr h1
    | some hitv =>
      simp only [coarsePhase, hch] at hp
      exact hvis p hp

end FindBiome

namespace FindBiome

theorem coarseSteps_pos : ∀ s ∈ coarseSteps, 1 ≤ s := by
  rw [coarseSteps_eq]; decide

theorem searchWithBound_inv (classify : Int → Int → Int) (tx0 ty0 tgt : Int)
    (ub : Nat) (hint : Option Tile) :
    Inv classify (searchWithBound classify tx0 ty0 tgt ub hint).finalState := by
  have hcpinv := coarsePhase_inv classify tx0 ty0 tgt ub
    coarseSteps emptySearchState [] (inv_empty classify)
  simp only [searchWithBound]
  split
  next st1 stats heq =>
    rw [heq] at hcpinv
    have hexinv := exactNearestWithinBound_inv classify tx0 ty0 tgt ub st1 hcpinv
    split
    next st2 ex heq2 => rw [heq2] at hexinv; exact hexinv
    next st2 heq2 => rw [heq2] at hexinv; exact hexinv
  next st1 stats hit heq =>
    rw [heq] at hcpinv
    have hexinv := exactNearestWithinBound_inv classify tx0 ty0 tgt (Nat.min ub hit.cheb) st1 hcpinv
    split
    next st2 ex heq2 => rw [heq2] at hexinv; exact hexinv
    next st2 heq2 => rw [heq2] at hexinv; exact hexinv

/-- Any tile returned by the bounded search is a genuine match at Chebyshev
distance at most the upper bound from the start. -/
theorem searchWithBound_result (classify : Int → Int → Int) (tx0 ty0 tgt : Int)
    (ub : Nat) (hint : Option Tile) :
    ∀ res, (searchWithBound classify tx0 ty0 tgt ub hint).result = some res →
      classify res.tx res.ty = tgt ∧ chebDist tx0 ty0 res.tx res.ty ≤ ub := by
  have hcpinv := coarsePhase_inv classify tx0 ty0 tgt ub
    coarseSteps emptySearchState [] (inv_empty classify)
  have hcphit := coarsePhase_hit classify tx0 ty0 tgt ub
    coarseSteps emptySearchState [] coarseSteps_pos (inv_empty classify)
  intro res hres
  simp only [searchWithBound] at hres
  split at hres
  next st1 stats heq =>
    rw [heq] at hcpinv
    have hexsome := exactNearestWithinBound_some classify tx0 ty0 tgt ub st1 hcpinv
    split at hres
    next st2 ex heq2 =>
      rw [heq2] at hexsome
      obtain ⟨hcl, hcheb, _⟩ := hexsome ex rfl
      simp only [Option.some.injEq] at hres
      subst hres
      exact ⟨hcl, hcheb⟩
    next st2 heq2 => simp at hres
  next st1 stats hit heq =>
    rw [heq] at hcpinv hcphit
    obtain ⟨hcl, hcheb, hle⟩ := hcphit hit rfl
    have hexsome := exactNearestWithinBound_some classify tx0 ty0 tgt (Nat.min ub hit.cheb) st1 hcpinv
    split at hres
    next st2 ex heq2 =>
      rw [heq2] at hexsome
      obtain ⟨hcl2, hcheb2, _⟩ := hexsome ex rfl
      simp only [Option.some.injEq] at hres
      subst hres
      exact ⟨hcl2, le_trans hcheb2 (Nat.min_le_left _ _)⟩
    next st2 heq2 =>
      simp only [Option.some.injEq] at hres
      subst hres
      exact ⟨hcl, by rw [← hcheb]; exact hle⟩

/-- If no tile within the upper bound classifies as the target, the bounded
search returns `null`. -/
theorem searchWithBound_none (classify : Int → Int → Int) (tx0 ty0 tgt : Int)
    (ub : Nat) (hint : Option Tile)
    (hno : ∀ tx ty, chebDist tx0 ty0 tx ty ≤ ub → classify tx ty ≠ tgt) :
    (searchWithBound classify tx0 ty0 tgt ub hint).result = none := by
  cases hres : (searchWithBound classify tx0 ty0 tgt ub hint).result with
  | none => rfl
  | some res =>
    obtain ⟨hcl, hcheb⟩ := searchWithBound_result classify tx0 ty0 tgt ub hint res hres
    exact absurd hcl (hno res.tx res.ty hcheb)

/-- Every tile examined (added to the visited set) by the bounded search lies
within the upper bound of the start. -/
theorem searchWithBound_visited (classify : Int → Int → Int) (tx0 ty0 tgt : Int)
    (ub : Nat) (hint : Option Tile) :
    ∀ p ∈ (searchWithBound classify tx0 ty0 tgt ub hint).finalState.visited,
      chebDist tx0 ty0 p.1 p.2 ≤ ub := by
  have hcpvis := coarsePhase_visited classify tx0 ty0 tgt ub coarseSteps emptySearchState [] coarseSteps_pos
  intro p hp
  simp only [searchWithBound] at hp
  split at hp
  next st1 stats heq =>
    rw [heq] at hcpvis
    have hexvis := exactNearestWithinBound_visited classify tx0 ty0 tgt ub st1
    split at hp
    next st2 ex heq2 =>
      rw [heq2] at hexvis
      have hp2 : p ∈ st2.visited := hp
      rcases hexvis p hp2 with h1 | h1
      · rcases hcpvis p h1 with h2 | h2
        · simp [emptySearchState] at h2
        · exact h2
      · exact h1
    next st2 heq2 =>
      rw [heq2] at hexvis
      have hp2 : p ∈ st2.visited := hp
      rcases hexvis p hp2 with h1 | h1
      · rcases hcpvis p h1 with h2 | h2
        · simp [emptySearchState] at h2
        · exact h2
      · exact h1
  next st1 stats hit heq =>
    rw [heq] at hcpvis
    have hexvis := exactNearestWithinBound_visited classify tx0 ty0 tgt (Nat.min ub hit.cheb) st1
    split at hp
    next st2 ex heq2 =>
      rw [heq2] at hexvis
      have hp2 : p ∈ st2.visited := hp
      rcases hexvis p hp2 with h1 | h1
      · rcases hcpvis p h1 with h2 | h2
        · simp [emptySearchState] at h2
        · exact h2
      · exact le_trans h1 (Nat.min_le_left _ _)
    next st2 heq2 =>
      rw [heq2] at hexvis
      have hp2 : p ∈ st2.visited := hp
      rcases hexvis p hp2 with h1 | h1
      · rcases hcpvis p h1 with h2 | h2
        · simp [emptySearchState] at h2
        · exact h2
      · exact le_trans h1 (Nat.min_le_left _ _)

theorem effectiveUpperBound_le (startTx startTy : Int) (hint : Option Tile) (maxCheb : Nat) :
    effectiveUpperBound startTx startTy hint maxCheb ≤ maxCheb := by
  unfold effectiveUpperBound
  cases hint with
  | none => exact le_rfl
  | some h =>
    by_cases hc : 0 < chebDist startTx startTy h.1 h.2 ∧
        chebDist startTx startTy h.1 h.2 < maxCheb
    · simp only [hc, and_self, if_pos]; omega
    · simp only [if_neg hc]; exact le_rfl

end FindBiome

namespace FindBiome

/-- C2: the search never examines or returns a tile beyond the caller's max
Chebyshev radius.  For every classification function, start tile, hint state
and max radius at least 1: (a) if no tile within Chebyshev distance `maxTiles`
of the start classifies as the target id, `findNearestBiome` returns the
not-found result (`none`); (b) any returned tile lies within Chebyshev
distance `maxTiles` of the start; (c) every examined (visited) tile lies
within Chebyshev distance `maxTiles` of the start. -/
theorem claim_C2 (classify : Int → Int → Int) (tx0 ty0 targetId maxTiles : Int)
    (hint : Option Tile) (hmax : 1 ≤ maxTiles) :
    ((∀ tx ty, chebDist tx0 ty0 tx ty ≤ maxTiles.toNat → classify tx ty ≠ targetId) →
      (findNearestBiome classify tx0 ty0 targetId maxTiles hint).result = none) ∧
    (∀ res, (findNearestBiome classify tx0 ty0 targetId maxTiles hint).result = some res →
      chebDist tx0 ty0 res.tx res.ty ≤ maxTiles.toNat) ∧
    (∀ p ∈ (findNearestBiome classify tx0 ty0 targetId maxTiles hint).finalState.visited,
      chebDist tx0 ty0 p.1 p.2 ≤ maxTiles.toNat) := by
  have hm : effectiveMaxCheb maxTiles = maxTiles.toNat := by
    unfold effectiveMaxCheb; omega
  have hub : effectiveUpperBound tx0 ty0 hint (effectiveMaxCheb maxTiles) ≤ maxTiles.toNat := by
    have := effectiveUpperBound_le tx0 ty0 hint (effectiveMaxCheb maxTiles)
    omega
  unfold findNearestBiome
  refine ⟨?_, ?_, ?_⟩
  · intro hno
    apply searchWithBound_none
    intro tx ty hcheb
    exact hno tx ty (le_trans hcheb hub)
  · intro res hres
    obtain ⟨_, hcheb⟩ := searchWithBound_result classify tx0 ty0 targetId _ hint res hres
    omega
  · intro p hp
    have := searchWithBound_visited classify tx0 ty0 targetId _ hint p hp
    omega

/-- Witness for C2 at the spec's instance: max radius 10, the only matching
tile at Chebyshev distance 20 — the search reports not-found. -/
theorem claim_C2_witness :
    (1 : Int) ≤ 10 ∧
      (findNearestBiome classifyOnlyAt20 0 0 7 10 none).result = none := by
  refine ⟨by decide, ?_⟩
  refine (claim_C2 classifyOnlyAt20 0 0 7 10 none (by decide)).1 ?_
  intro tx ty hcheb
  show (if tx = 20 ∧ ty = 0 then (7 : Int) else 0) ≠ 7
  by_cases hc : tx = 20 ∧ ty = 0
  · obtain ⟨h1, h2⟩ := hc
    subst h1; subst h2
    exact absurd hcheb (by decide)
  · rw [if_neg hc]; decide

/-- C5: within a single `findNearestBiome` call, no tile coordinate is
classified more than once — the log of classifier invocations (shared across
all coarse strides and the exact phase via the visited set and memo map) has
no duplicate tile. -/
theorem claim_C5 (classify : Int → Int → Int) (tx0 ty0 targetId maxTiles : Int)
    (hint : Option Tile) :
    (findNearestBiome classify tx0 ty0 targetId maxTiles hint).finalState.calls.Nodup :=
  (searchWithBound_inv classify tx0 ty0 targetId
    (effectiveUpperBound tx0 ty0 hint (effectiveMaxCheb maxTiles)) hint).1

/-- C10: `findNearestBiome` forces its Chebyshev bound to at least 1.  Any
call with `maxTiles ≤ 1` (in particular 0 or negative) behaves exactly like a
call with bound 1, and with bound 0 the search still finds a target at
Chebyshev distance 1 from the start rather than examining only the start
tile or rejecting the call. -/
theorem claim_C10 (classify : Int → Int → Int) (tx0 ty0 targetId : Int)
    (hint : Option Tile) :
    (∀ maxTiles : Int, maxTiles ≤ 1 →
      findNearestBiome classify tx0 ty0 targetId maxTiles hint =
        findNearestBiome classify tx0 ty0 targetId 1 hint) ∧
    (findNearestBiome classifyOnlyEast 0 0 7 0 none).result.map
      (fun r => (r.tx, r.ty, r.d2)) = some (1, 0, 1) := by
  constructor
  · intro maxTiles hmt
    unfold findNearestBiome
    have h : effectiveMaxCheb maxTiles = effectiveMaxCheb 1 := by
      unfold effectiveMaxCheb; omega
    rw [h]
  · simp only [findNearestBiome, searchWithBound, coarseSteps_eq]
    decide

/-- Witness for C10: a call with max radius 0 equals the call with radius 1. -/
theorem claim_C10_witness :
    (0 : Int) ≤ 1 ∧
      findNearestBiome classifyOnlyEast 0 0 7 0 none =
        findNearestBiome classifyOnlyEast 0 0 7 1 none :=
  ⟨by decide, (claim_C10 classifyOnlyEast 0 0 7 none).1 0 (by decide)⟩

/-- C1 (code bug): with two matching tiles (2,0) and (2,1) within max radius
2 of the origin, `findNearestBiome` returns (2,1) at squared distance 5
flagged `exact := true`, although (2,0) also matches within the bound at
squared distance 4 < 5 — the exact-refinement phase skips tiles already
visited by the coarse phase (including the coarse hit itself), so the
`exact = true` result is not the true nearest match.  This contradicts the
module's own documentation ("exact refinement … to guarantee nearest result",
"computes Euclidean distance to return the actual nearest tile") and the
spec's nearest-guarantee. -/
theorem claim_C1 :
    ((findNearestBiome classifyTwoMatches 0 0 7 2 none).result.map
      (fun r => (r.tx, r.ty, r.d2, r.exact)) = some (2, 1, 5, true)) ∧
    classifyTwoMatches 2 0 = 7 ∧
    chebDist 0 0 2 0 ≤ 2 ∧
    dist2Tiles 0 0 2 0 = 4 ∧
    dist2Tiles 0 0 2 1 = 5 := by
  refine ⟨?_, by decide, by decide, by decide, by decide⟩
  simp only [findNearestBiome, searchWithBound, coarseSteps_eq]
  decide

end FindBiome

namespace Biomes

theorem minAux_le {α : Type} (f : α → ℚ) :
    ∀ (l : List α) (a : α), f (minAux f a l) ≤ f a := by
  intro l
  induction l with
  | nil => intro a; simp [minAux]
  | cons c cs ih =>
    intro a
    simp only [minAux]
    by_cases h : f c < f a
    · rw [if_pos h]
      exact le_trans (ih c) (le_of_lt h)
    · rw [if_neg h]
      exact ih a

theorem foldl_classifyStep_eq (axes weights : Axes) :
    ∀ (l : List Biome) (a : Biome),
      l.foldl (classifyStep axes weights)
        (some (a, weightedDist2 axes a.axes weights)) =
      some (minAux (fun b => weightedDist2 axes b.axes weights) a l,
        weightedDist2 axes
          (minAux (fun b => weightedDist2 axes b.axes weights) a l).axes weights) := by
  intro l
  induction l with
  | nil => intro a; simp [minAux]
  | cons c cs ih =>
    intro a
    rw [List.foldl_cons]
    simp only [minAux]
    by_cases h : weightedDist2 axes c.axes weights < weightedDist2 axes a.axes weights
    · rw [if_pos h]
      have hstep : classifyStep axes weights (some (a, weightedDist2 axes a.axes weights)) c =
          some (c, weightedDist2 axes c.axes weights) := by
        simp [classifyStep, h]
      rw [hstep]
      exact ih c
    · rw [if_neg h]
      have hstep : classifyStep axes weights (some (a, weightedDist2 axes a.axes weights)) c =
          some (a, weightedDist2 axes a.axes weights) := by
        simp [classifyStep, h]
      rw [hstep]
      exact ih a

theorem minAux_decomp {α : Type} (f : α → ℚ) :
    ∀ (l : List α) (a : α), ∃ pre post, a :: l = pre ++ minAux f a l :: post ∧
      (∀ c ∈ pre, f (minAux f a l) < f c) ∧ (∀ c ∈ post, f (minAux f a l) ≤ f c) := by
  intro l
  induction l with
  | nil =>
    intro a
    exact ⟨[], [], by simp [minAux], by simp, by simp⟩
  | cons c cs ih =>
    intro a
    simp only [minAux]
    by_cases h : f c < f a
    · rw [if_pos h]
      obtain ⟨pre, post, hdec, hpre, hpost⟩ := ih c
      refine ⟨a :: pre, post, ?_, ?_, hpost⟩
      · rw [List.cons_append, ← hdec]
      · intro x hx
        rcases List.mem_cons.1 hx with hx | hx
        · subst hx
          exact lt_of_le_of_lt (minAux_le f cs c) h
        · exact hpre x hx
    · rw [if_neg h]
      obtain ⟨pre, post, hdec, hpre, hpost⟩ := ih a
      cases pre with
      | nil =>
        simp only [List.nil_append, List.cons.injEq] at hdec
        obtain ⟨hma, hpost'⟩ := hdec
        refine ⟨[], c :: cs, ?_, by simp, ?_⟩
        · rw [List.nil_append, ← hma]
        · intro x hx
          rcases List.mem_cons.1 hx with hx | hx
          · subst hx
            rw [← hma]
            exact le_of_not_lt h
          · exact hpost x (hpost' ▸ hx)
      | cons a' pre' =>
        simp only [List.cons_append, List.cons.injEq] at hdec
        obtain ⟨haa, hcs⟩ := hdec
        have hma : f (minAux f a cs) < f a := by
          have := hpre a' (List.mem_cons_self _ _)
          rw [← haa] at this
          exact this
        refine ⟨a :: c :: pre', post, ?_, ?_, hpost⟩
        · conv_lhs => rw [hcs]
          rw [List.cons_append, List.cons_append]
        · intro x hx
          rcases List.mem_cons.1 hx with hx | hx
          · subst hx
            exact hma
          · rcases List.mem_cons.1 hx with hx | hx
            · subst hx
              exact lt_of_lt_of_le hma (le_of_not_lt h)
            · exact hpre x (List.mem_cons_of_mem _ hx)

theorem find?_pre {α : Type} (p : α → Bool) :
    ∀ (pre : List α) (b : α) (post : List α), p b = true → (∀ a ∈ pre, p a = false) →
      (pre ++ b :: post).find? p = some b := by
  intro pre
  induction pre with
  | nil =>
    intro b post hb _
    simp only [List.nil_append]
    exact List.find?_cons_of_pos _ hb
  | cons a rest ih =>
    intro b post hb hpre
    rw [List.cons_append, List.find?_cons_of_neg]
    · exact ih b post hb fun x hx => hpre x (List.mem_cons_of_mem _ hx)
    · simp [hpre a (List.mem_cons_self _ _)]

/-- C3: `classifyAxes` returns the prototype minimizing the weighted squared
Euclidean distance, with deterministic first-match tie-break (the first
prototype in list iteration order attaining the minimum), and its `dist`
field is that minimum distance.  Stated as an equation against the
specification-side `firstNearestBiome` (the first prototype whose distance is
at most every other prototype's), for every query, prototype list and weight
vector; both sides are `none` exactly on the empty list. -/
theorem claim_C3 (axes : Axes) (list : List Biome) (weights : Axes) :
    classifyAxes axes list weights =
      (firstNearestBiome axes list weights).map fun b =>
        ⟨b.id, b.label, b.anchor, b.color, weightedDist2 axes b.axes weights⟩ := by
  cases list with
  | nil => rfl
  | cons a rest =>
    obtain ⟨pre, post, hdec, hpre, hpost⟩ :=
      minAux_decomp (fun b : Biome => weightedDist2 axes b.axes weights) rest a
    have hL : classifyAxes axes (a :: rest) weights =
        some ⟨(minAux (fun b => weightedDist2 axes b.axes weights) a rest).id,
          (minAux (fun b => weightedDist2 axes b.axes weights) a rest).label,
          (minAux (fun b => weightedDist2 axes b.axes weights) a rest).anchor,
          (minAux (fun b => weightedDist2 axes b.axes weights) a rest).color,
          weightedDist2 axes
            (minAux (fun b => weightedDist2 axes b.axes weights) a rest).axes weights⟩ := by
      simp only [classifyAxes]
      rw [List.foldl_cons]
      have h0 : classifyStep axes weights none a =
          some (a, weightedDist2 axes a.axes weights) := rfl
      rw [h0, foldl_classifyStep_eq]
      rfl
    have hR : firstNearestBiome axes (a :: rest) weights =
        some (minAux (fun b => weightedDist2 axes b.axes weights) a rest) := by
      unfold firstNearestBiome
      rw [hdec]
      apply find?_pre
      · simp only [List.all_eq_true, decide_eq_true_eq]
        intro c hc
        rcases List.mem_append.1 hc with hc | hc
        · exact le_of_lt (hpre _ hc)
        · rcases List.mem_cons.1 hc with hc | hc
          · rw [hc]
          · exact hpost _ hc
      · intro x hx
        have hxm := hpre x hx
        rw [Bool.eq_false_iff]
        intro hall
        simp only [List.all_eq_true, decide_eq_true_eq] at hall
        have hmem : minAux (fun b => weightedDist2 axes b.axes weights) a rest ∈
            pre ++ minAux (fun b => weightedDist2 axes b.axes weights) a rest :: post :=
          List.mem_append_right _ (List.mem_cons_self _ _)
        have := hall _ hmem
        exact absurd this (not_le.2 hxm)
    rw [hL, hR, Option.map_some']

theorem clamp01_inUnitOrNaN (x : JSNum) : inUnitOrNaN (clamp01 x) := by
  cases x with
  | num q =>
    simp only [clamp01]
    by_cases h0 : q < 0
    · rw [if_pos (show JSNum.lt (.num q) (.num 0) = true by simp [JSNum.lt, h0])]
      exact Or.inl ⟨0, rfl, le_refl 0, zero_le_one⟩
    · rw [if_neg (show ¬ JSNum.lt (.num q) (.num 0) = true by simp [JSNum.lt, h0])]
      by_cases h1 : (1 : ℚ) < q
      · rw [if_pos (show JSNum.lt (.num 1) (.num q) = true by simp [JSNum.lt, h1])]
        exact Or.inl ⟨1, rfl, zero_le_one, le_refl 1⟩
      · rw [if_neg (show ¬ JSNum.lt (.num 1) (.num q) = true by simp [JSNum.lt, h1])]
        exact Or.inl ⟨q, rfl, le_of_not_lt h0, le_of_not_lt h1⟩
  | posInf => exact Or.inl ⟨1, rfl, zero_le_one, le_refl 1⟩
  | negInf => exact Or.inl ⟨0, rfl, le_refl 0, zero_le_one⟩
  | nan => exact Or.inr rfl

/-- C7 (amended): every row produced by `parseBiomesCSV` comes from a line of
the input that is non-blank after trimming, is not a `#` comment, and has at
least 10 comma-separated fields (shorter rows are skipped, never fatal); and
every axis value of a produced row is either a finite number clamped into
[0,1] or NaN.  (The original claim's stronger statement — that every axis
value lies in [0,1] — fails when a field does not parse as a number:
`Number(...)` yields NaN, and `clamp01` passes NaN through unclamped.) -/
theorem claim_C7 (text : String) :
    ∀ row ∈ parseBiomesCSV text,
      (∃ line ∈ splitLinesAux text.data,
        trimChars line ≠ [] ∧ (trimChars line).headD ' ' ≠ '#' ∧
          10 ≤ (splitOnChar ',' (trimChars line)).length ∧ parseRow line = some row) ∧
      (inUnitOrNaN row.temp ∧ inUnitOrNaN row.moist ∧ inUnitOrNaN row.elev ∧
       inUnitOrNaN row.rough ∧ inUnitOrNaN row.sal ∧ inUnitOrNaN row.fert ∧
       inUnitOrNaN row.fire) := by
  intro row hrow
  unfold parseBiomesCSV at hrow
  by_cases hlen :
      ((splitLinesAux text.data).filter fun l => (trimChars l).length > 0).length = 0
  · rw [if_pos hlen] at hrow
    simp at hrow
  · rw [if_neg hlen] at hrow
    obtain ⟨line, hline, hparse⟩ := List.mem_filterMap.1 hrow
    have hline2 : line ∈ splitLinesAux text.data :=
      List.mem_of_mem_filter (List.mem_of_mem_drop hline)
    have hconds : trimChars line ≠ [] ∧ (trimChars line).headD ' ' ≠ '#' ∧
        10 ≤ (splitOnChar ',' (trimChars line)).length := by
      unfold parseRow at hparse
      by_cases h1 : trimChars line = [] ∨ (trimChars line).headD ' ' = '#'
      · rw [if_pos h1] at hparse; cases hparse
      · rw [if_neg h1] at hparse
        push_neg at h1
        by_cases h2 : (splitOnChar ',' (trimChars line)).length < 10
        · rw [if_pos h2] at hparse; cases hparse
        · exact ⟨h1.1, h1.2, le_of_not_lt h2⟩
    have haxes : inUnitOrNaN row.temp ∧ inUnitOrNaN row.moist ∧ inUnitOrNaN row.elev ∧
        inUnitOrNaN row.rough ∧ inUnitOrNaN row.sal ∧ inUnitOrNaN row.fert ∧
        inUnitOrNaN row.fire := by
      unfold parseRow at hparse
      by_cases h1 : trimChars line = [] ∨ (trimChars line).headD ' ' = '#'
      · rw [if_pos h1] at hparse; cases hparse
      · rw [if_neg h1] at hparse
        by_cases h2 : (splitOnChar ',' (trimChars line)).length < 10
        · rw [if_pos h2] at hparse; cases hparse
        · rw [if_neg h2] at hparse
          simp only [Option.some.injEq] at hparse
          subst hparse
          exact ⟨clamp01_inUnitOrNaN _, clamp01_inUnitOrNaN _, clamp01_inUnitOrNaN _,
            clamp01_inUnitOrNaN _, clamp01_inUnitOrNaN _, clamp01_inUnitOrNaN _,
            clamp01_inUnitOrNaN _⟩
    exact ⟨⟨line, hline2, hconds.1, hconds.2.1, hconds.2.2, hparse⟩, haxes⟩

/-- C7 counterexample: the 10-field row `1,L,A,x,0,0,0,0,0,0` is accepted,
and its `temp` field — `clamp01(Number("x"))` — is NaN, which does not lie in
[0,1]; so not every axis value of a produced row is a number in [0,1]. -/
theorem claim_C7_counterexample :
    (parseBiomesCSV "1,L,A,x,0,0,0,0,0,0").map (fun r => r.temp) = [JSNum.nan] ∧
      ¬ inUnit JSNum.nan := by
  constructor
  · decide
  · rintro ⟨q, hq, -, -⟩
    cases hq

/-- C8: prototype-set replacement is all-or-nothing.  If the fetch throws or
the response is not ok, or the fetched text parses to zero rows, the active
prototype set is left exactly as it was; the set is swapped only when parsing
yields at least one row, and then it is replaced wholesale by the parsed
list (never partially); in every case the new active set is either the old
set or the whole parsed list. -/
theorem claim_C8 (active : List CSVRow) (text : String) :
    tryLoadBiomesFromCSV .fetchError active = (active, active) ∧
    tryLoadBiomesFromCSV .notOk active = (active, active) ∧
    (parseBiomesCSV text = [] →
      tryLoadBiomesFromCSV (.ok text) active = (active, active)) ∧
    (parseBiomesCSV text ≠ [] →
      tryLoadBiomesFromCSV (.ok text) active =
        (parseBiomesCSV text, parseBiomesCSV text)) ∧
    ((tryLoadBiomesFromCSV (.ok text) active).1 = active ∨
      (tryLoadBiomesFromCSV (.ok text) active).1 = parseBiomesCSV text) := by
  refine ⟨rfl, rfl, ?_, ?_, ?_⟩
  · intro h
    simp only [tryLoadBiomesFromCSV, h, List.length_nil, ne_eq, not_true_eq_false, if_false]
  · intro h
    have hlen : (parseBiomesCSV text).length ≠ 0 := by
      simpa [List.length_eq_zero] using h
    simp only [tryLoadBiomesFromCSV, ne_eq, hlen, not_false_eq_true, if_true]
  · by_cases h : parseBiomesCSV text = []
    · left
      simp only [tryLoadBiomesFromCSV, h, List.length_nil, ne_eq, not_true_eq_false, if_false]
    · right
      have hlen : (parseBiomesCSV text).length ≠ 0 := by
        simpa [List.length_eq_zero] using h
      simp only [tryLoadBiomesFromCSV, ne_eq, hlen, not_false_eq_true, if_true]

/-- Witness for C8: loading a one-row CSV over the built-in default set swaps
the set wholesale; loading an empty body leaves the default set unchanged. -/
theorem claim_C8_witness :
    (parseBiomesCSV "1,L,A,0,0,0,0,0,0,0" ≠ [] ∧
      tryLoadBiomesFromCSV (.ok "1,L,A,0,0,0,0,0,0,0") DEFAULT_ALABAMA_BIOMES =
        (parseBiomesCSV "1,L,A,0,0,0,0,0,0,0", parseBiomesCSV "1,L,A,0,0,0,0,0,0,0")) ∧
    (parseBiomesCSV "" = [] ∧
      tryLoadBiomesFromCSV (.ok "") DEFAULT_ALABAMA_BIOMES =
        (DEFAULT_ALABAMA_BIOMES, DEFAULT_ALABAMA_BIOMES)) := by
  have h1 : parseBiomesCSV "1,L,A,0,0,0,0,0,0,0" ≠ [] := by decide
  have h2 : parseBiomesCSV "" = [] := by decide
  exact ⟨⟨h1, (claim_C8 DEFAULT_ALABAMA_BIOMES _).2.2.2.1 h1⟩,
    ⟨h2, (claim_C8 DEFAULT_ALABAMA_BIOMES _).2.2.1 h2⟩⟩

end Biomes

namespace WorldCache

theorem toLower_mem_VIEW_MODES : ∀ m ∈ VIEW_MODES, toLowerStr m = m := by decide

/-- C6: `setViewMode` called with a mode whose normalized (lowercased) form is
outside the fixed set {biomes, temp, moist, elev, rough, sal, fert, fire}
throws (modelled as `Except.error`; the functional model returns no new state,
so the active mode and the chunk cache are untouched); called with the
currently active (recognized) mode it is a no-op returning the state
unchanged, cache included; called with a different recognized mode it adopts
the new mode and drops every cached chunk raster. -/
theorem claim_C6 {Chunk : Type} (w : WorldState Chunk) (mode : String) :
    (toLowerStr mode ∉ VIEW_MODES →
      setViewMode w mode = Except.error ("Invalid view mode: " ++ mode)) ∧
    (w.viewMode ∈ VIEW_MODES → setViewMode w w.viewMode = Except.ok w) ∧
    (toLowerStr mode ∈ VIEW_MODES → toLowerStr mode ≠ w.viewMode →
      setViewMode w mode = Except.ok ⟨[], toLowerStr mode⟩) := by
  refine ⟨?_, ?_, ?_⟩
  · intro h
    simp only [setViewMode, h, not_false_eq_true, if_true]
  · intro h
    have hlow : toLowerStr w.viewMode = w.viewMode := toLower_mem_VIEW_MODES _ h
    simp only [setViewMode, hlow, h, not_true_eq_false, if_false, ne_eq,
      not_true_eq_false, ite_false]
  · intro h hne
    simp only [setViewMode, h, not_true_eq_false, if_false, ne_eq, hne,
      not_false_eq_true, if_true]

/-- Witness for C6 at concrete inputs: an unrecognized mode errors; setting
the active mode keeps the cache; switching modes drops the cache. -/
theorem claim_C6_witness :
    (toLowerStr "lava" ∉ VIEW_MODES ∧
      setViewMode (⟨[((0, 0), ())], "biomes"⟩ : WorldState Unit) "lava" =
        Except.error ("Invalid view mode: " ++ "lava")) ∧
    (("biomes" : String) ∈ VIEW_MODES ∧
      setViewMode (⟨[((0, 0), ())], "biomes"⟩ : WorldState Unit) "biomes" =
        Except.ok ⟨[((0, 0), ())], "biomes"⟩) ∧
    (toLowerStr "temp" ∈ VIEW_MODES ∧ toLowerStr "temp" ≠ "biomes" ∧
      setViewMode (⟨[((0, 0), ())], "biomes"⟩ : WorldState Unit) "temp" =
        Except.ok ⟨[], toLowerStr "temp"⟩) := by
  refine ⟨⟨by decide, ?_⟩, ⟨by decide, ?_⟩, by decide, by decide, ?_⟩
  · exact (claim_C6 (⟨[((0, 0), ())], "biomes"⟩ : WorldState Unit) "lava").1 (by decide)
  · exact (claim_C6 (⟨[((0, 0), ())], "biomes"⟩ : WorldState Unit) "biomes").2.1 (by decide)
  · exact (claim_C6 (⟨[((0, 0), ())], "biomes"⟩ : WorldState Unit) "temp").2.2
      (by decide) (by decide)

end WorldCache

namespace WorldGen

theorem hash2i_lt (ix iy : Int) (seed : Nat) : hash2i ix iy seed < 4294967296 := by
  have h : hash2i ix iy seed < 2 ^ 32 := by
    simp only [hash2i, imul]
    refine Nat.xor_lt_two_pow ?_ ?_
    · exact lt_of_lt_of_eq (Nat.mod_lt _ (by norm_num)) (by norm_num)
    · exact lt_of_le_of_lt (Nat.div_le_self _ _)
        (lt_of_lt_of_eq (Nat.mod_lt _ (by norm_num)) (by norm_num))
  exact lt_of_lt_of_eq h (by norm_num)

theorem hash2f_mem (ix iy : Int) (seed : Nat) :
    0 ≤ hash2f ix iy seed ∧ hash2f ix iy seed < 1 := by
  unfold hash2f
  constructor
  · positivity
  · rw [div_lt_one (by norm_num)]
    have := hash2i_lt ix iy seed
    exact_mod_cast this

theorem fade_mem {t : ℚ} (h0 : 0 ≤ t) (h1 : t ≤ 1) : 0 ≤ fade t ∧ fade t ≤ 1 := by
  constructor
  · have hq : (0 : ℚ) < 6 * t ^ 2 - 15 * t + 10 := by nlinarith [sq_nonneg (t - 5/4)]
    have hf : fade t = t ^ 3 * (6 * t ^ 2 - 15 * t + 10) := by unfold fade; ring
    rw [hf]
    exact mul_nonneg (pow_nonneg h0 3) (le_of_lt hq)
  · have hq : (0 : ℚ) < 6 * t ^ 2 + 3 * t + 1 := by nlinarith [sq_nonneg (t + 1/4)]
    have hf : 1 - fade t = (1 - t) ^ 3 * (6 * t ^ 2 + 3 * t + 1) := by unfold fade; ring
    have h3 : (0 : ℚ) ≤ (1 - t) ^ 3 := pow_nonneg (by linarith) 3
    nlinarith [mul_nonneg h3 (le_of_lt hq)]

theorem lerp_mem {a b t : ℚ} (ha0 : 0 ≤ a) (ha1 : a < 1) (hb0 : 0 ≤ b) (hb1 : b < 1)
    (ht0 : 0 ≤ t) (ht1 : t ≤ 1) : 0 ≤ lerp a b t ∧ lerp a b t < 1 := by
  unfold lerp
  constructor
  · nlinarith
  · rcases le_total a b with h | h
    · nlinarith
    · nlinarith

theorem valueNoise2D_mem (x y : ℚ) (seed : Nat) :
    0 ≤ valueNoise2D x y seed ∧ valueNoise2D x y seed < 1 := by
  unfold valueNoise2D
  have hfx0 : (0 : ℚ) ≤ x - Int.floor x := by
    have := Int.floor_le x
    linarith
  have hfx1 : x - Int.floor x ≤ 1 := by
    have := Int.lt_floor_add_one x
    linarith
  have hfy0 : (0 : ℚ) ≤ y - Int.floor y := by
    have := Int.floor_le y
    linarith
  have hfy1 : y - Int.floor y ≤ 1 := by
    have := Int.lt_floor_add_one y
    linarith
  obtain ⟨hu0, hu1⟩ := fade_mem hfx0 hfx1
  obtain ⟨hv0, hv1⟩ := fade_mem hfy0 hfy1
  obtain ⟨h00a, h00b⟩ := hash2f_mem (Int.floor x) (Int.floor y) seed
  obtain ⟨h10a, h10b⟩ := hash2f_mem (Int.floor x + 1) (Int.floor y) seed
  obtain ⟨h01a, h01b⟩ := hash2f_mem (Int.floor x) (Int.floor y + 1) seed
  obtain ⟨h11a, h11b⟩ := hash2f_mem (Int.floor x + 1) (Int.floor y + 1) seed
  obtain ⟨hx0a, hx0b⟩ := lerp_mem h00a h00b h10a h10b hu0 hu1
  obtain ⟨hx1a, hx1b⟩ := lerp_mem h01a h01b h11a h11b hu0 hu1
  exact lerp_mem hx0a hx0b hx1a hx1b hv0 hv1

theorem fbm2Loop_bounds (seed : Nat) (lac gain : ℚ) (hgain : 0 ≤ gain) :
    ∀ (n : Nat) (amp sum ampSum nx ny : ℚ), 0 ≤ amp → 0 ≤ sum → sum ≤ ampSum →
      0 ≤ (fbm2Loop seed lac gain n amp sum ampSum nx ny).1 ∧
      (fbm2Loop seed lac gain n amp sum ampSum nx ny).1 ≤
        (fbm2Loop seed lac gain n amp sum ampSum nx ny).2 := by
  intro n
  induction n with
  | zero =>
    intro amp sum ampSum nx ny _ hs hsa
    exact ⟨hs, hsa⟩
  | succ i ih =>
    intro amp sum ampSum nx ny hamp hs hsa
    simp only [fbm2Loop]
    obtain ⟨hn0, hn1⟩ := valueNoise2D_mem nx ny seed
    refine ih (amp * gain) _ _ (nx * lac) (ny * lac) (mul_nonneg hamp hgain) ?_ ?_
    · have : 0 ≤ valueNoise2D nx ny seed * amp := mul_nonneg hn0 hamp
      linarith
    · have : valueNoise2D nx ny seed * amp ≤ amp := by nlinarith
      linarith

/-- C4: for every coordinate, seed, and noise parameters with octave count
≥ 1, base frequency > 0, lacunarity > 1 and gain in (0,1), the output of
`fbm2` lies in [0,1]: it is the amplitude-weighted average of per-octave
`valueNoise2D` samples, each of which lies in [0,1). -/
theorem claim_C4 (x y : ℚ) (seed : Nat) (p : NoiseParams)
    (hoct : 1 ≤ p.octaves) (hfreq : 0 < p.frequency)
    (hlac : 1 < p.lacunarity) (hgain0 : 0 < p.gain) (hgain1 : p.gain < 1) :
    0 ≤ fbm2 x y seed p ∧ fbm2 x y seed p ≤ 1 := by
  unfold fbm2
  obtain ⟨hs, hsa⟩ := fbm2Loop_bounds seed p.lacunarity p.gain (le_of_lt hgain0)
    p.octaves 1 0 0 (x * p.frequency) (y * p.frequency) zero_le_one le_rfl le_rfl
  by_cases hpos : 0 < (fbm2Loop seed p.lacunarity p.gain p.octaves 1 0 0
      (x * p.frequency) (y * p.frequency)).2
  · rw [if_pos hpos]
    constructor
    · positivity
    · rw [div_le_one hpos]
      exact hsa
  · rw [if_neg hpos]
    exact ⟨le_rfl, zero_le_one⟩

/-- Witness for C4 at a concrete valid parameter set (the moisture
parameters of config.js) and a concrete coordinate and seed. -/
theorem claim_C4_witness :
    1 ≤ (NoiseParams.mk 4 (1/64) 2 (1/2)).octaves ∧
      0 < (NoiseParams.mk 4 (1/64) 2 (1/2)).frequency ∧
      1 < (NoiseParams.mk 4 (1/64) 2 (1/2)).lacunarity ∧
      0 < (NoiseParams.mk 4 (1/64) 2 (1/2)).gain ∧
      (NoiseParams.mk 4 (1/64) 2 (1/2)).gain < 1 ∧
      (0 ≤ fbm2 3 (-5) 42 (NoiseParams.mk 4 (1/64) 2 (1/2)) ∧
        fbm2 3 (-5) 42 (NoiseParams.mk 4 (1/64) 2 (1/2)) ≤ 1) :=
  ⟨by norm_num, by norm_num, by norm_num, by norm_num, by norm_num,
    claim_C4 3 (-5) 42 (NoiseParams.mk 4 (1/64) 2 (1/2))
      (by norm_num) (by norm_num) (by norm_num) (by norm_num) (by norm_num)⟩

end WorldGen

namespace WorldGen

theorem tanh_explicit (x : ℝ) :
    Real.tanh x = (Real.exp (2 * x) - 1) / (Real.exp (2 * x) + 1) := by
  rw [Real.tanh_eq_sinh_div_cosh, Real.sinh_eq, Real.cosh_eq, Real.exp_neg, two_mul,
    Real.exp_add]
  have he : Real.exp x ≠ 0 := ne_of_gt (Real.exp_pos x)
  have hd : Real.exp x * Real.exp x + 1 ≠ 0 := by positivity
  field_simp

theorem tanh_mem (x : ℝ) : -1 < Real.tanh x ∧ Real.tanh x < 1 := by
  rw [tanh_explicit]
  have he : (0 : ℝ) < Real.exp (2 * x) := Real.exp_pos _
  have hd : (0 : ℝ) < Real.exp (2 * x) + 1 := by linarith
  constructor
  · rw [lt_div_iff₀ hd]
    linarith
  · rw [div_lt_one hd]
    linarith

theorem tanh_mono {x y : ℝ} (h : x ≤ y) : Real.tanh x ≤ Real.tanh y := by
  rw [tanh_explicit, tanh_explicit]
  have hx : (0 : ℝ) < Real.exp (2 * x) := Real.exp_pos _
  have hy : (0 : ℝ) < Real.exp (2 * y) := Real.exp_pos _
  have hxy : Real.exp (2 * x) ≤ Real.exp (2 * y) := Real.exp_le_exp.2 (by linarith)
  rw [div_le_div_iff₀ (by linarith) (by linarith)]
  nlinarith

/-- C9: for every positive scale, `latSouth(y, scale) = 0.5·(1 + tanh(y/scale))`
is monotonically nondecreasing in `y`, takes values in [0,1] for every real
`y`, and is centered at `y = 0` with value 1/2. -/
theorem claim_C9 (scale : ℝ) (hscale : 0 < scale) :
    (∀ y1 y2 : ℝ, y1 ≤ y2 → latSouth y1 scale ≤ latSouth y2 scale) ∧
    (∀ y : ℝ, 0 ≤ latSouth y scale ∧ latSouth y scale ≤ 1) ∧
    latSouth 0 scale = 1 / 2 := by
  have hne : scale ≠ 0 := ne_of_gt hscale
  refine ⟨?_, ?_, ?_⟩
  · intro y1 y2 h
    unfold latSouth
    rw [if_neg hne]
    have hdiv : y1 / scale ≤ y2 / scale := (div_le_div_iff_of_pos_right hscale).2 h
    have := tanh_mono hdiv
    linarith
  · intro y
    unfold latSouth
    rw [if_neg hne]
    obtain ⟨h1, h2⟩ := tanh_mem (y / scale)
    constructor <;> nlinarith
  · unfold latSouth
    rw [if_neg hne, zero_div, Real.tanh_zero]
    norm_num

end WorldGen

/-- Witness for C9 at the concrete latitude half-scale 8192 of config.js. -/
theorem claim_C9_witness :
    (0 : ℝ) < 8192 ∧
      ((∀ y1 y2 : ℝ, y1 ≤ y2 → WorldGen.latSouth y1 8192 ≤ WorldGen.latSouth y2 8192) ∧
       (∀ y : ℝ, 0 ≤ WorldGen.latSouth y 8192 ∧ WorldGen.latSouth y 8192 ≤ 1) ∧
       WorldGen.latSouth 0 8192 = 1 / 2) :=
  ⟨by norm_num, WorldGen.claim_C9 8192 (by norm_num)⟩

namespace Biomes

/-- Witness for C7 at the concrete input `1,L,A,0,0,0,0,0,0,0`, whose single
produced row is `csvRowW`. -/
theorem claim_C7_witness :
    csvRowW ∈ parseBiomesCSV "1,L,A,0,0,0,0,0,0,0" ∧
      ((∃ line ∈ splitLinesAux ("1,L,A,0,0,0,0,0,0,0" : String).data,
        trimChars line ≠ [] ∧ (trimChars line).headD ' ' ≠ '#' ∧
          10 ≤ (splitOnChar ',' (trimChars line)).length ∧ parseRow line = some csvRowW) ∧
      (inUnitOrNaN csvRowW.temp ∧ inUnitOrNaN csvRowW.moist ∧ inUnitOrNaN csvRowW.elev ∧
       inUnitOrNaN csvRowW.rough ∧ inUnitOrNaN csvRowW.sal ∧ inUnitOrNaN csvRowW.fert ∧
       inUnitOrNaN csvRowW.fire)) :=
  ⟨by decide, claim_C7 "1,L,A,0,0,0,0,0,0,0" csvRowW (by decide)⟩

end Biomes
